import Mathlib

/-!
Verification of the HTTP/1.1 message library (crates/http_lib).

Bytes are modelled as natural numbers below 256, byte buffers as `List Nat`.
The Rust `Bytes` cursor (zero-copy views that are advanced/split) is modelled
by returning, next to each parse result, the list of remaining bytes.
The 256-entry classification tables from `src/chars.rs` become functions
`Nat → Nat` mapping a byte to itself when it is in the class and to 0
otherwise; the open-ended `0x80..` arms of the Rust tables are bounded by
255 here because the Rust tables are indexed by `u8`.
-/

set_option maxRecDepth 10000

def CRLFb : List Nat := [13, 10]

def isAsciiAlphanumericB (c : Nat) : Bool :=
  (48 ≤ c && c ≤ 57) || (65 ≤ c && c ≤ 90) || (97 ≤ c && c ≤ 122)

/-- `URI_MAP` from src/chars.rs: alphanumerics plus the listed punctuation. -/
def URI_MAP (c : Nat) : Nat :=
  if isAsciiAlphanumericB c ||
     (c ∈ [58, 124, 63, 35, 91, 93, 64, 33, 36, 38, 39, 40,
           41, 42, 43, 44, 59, 61, 37, 45, 46, 95, 126, 47] : Bool)
  then c else 0

/-- `TCHAR_MAP` from src/chars.rs (RFC 9110 tchar). -/
def TCHAR_MAP (c : Nat) : Nat :=
  if isAsciiAlphanumericB c ||
     (c ∈ [33, 35, 36, 37, 38, 39, 42, 43, 45, 46, 94, 95, 96, 124, 126] : Bool)
  then c else 0

/-- `TOKEN_MAP` from src/chars.rs: tchar plus delimiters (excluding `,`, `"`,
`(`) and the space character. -/
def TOKEN_MAP (c : Nat) : Nat :=
  if TCHAR_MAP c ≠ 0 ||
     (c ∈ [41, 47, 58, 59, 60, 61, 62, 63, 64, 91, 93, 123, 125, 32] : Bool)
  then c else 0

/-- `DATE_MAP` from src/chars.rs: alphanumerics plus space, comma, colon. -/
def DATE_MAP (c : Nat) : Nat :=
  if isAsciiAlphanumericB c || (c ∈ [32, 44, 58] : Bool) then c else 0

/-- `CTEXT_MAP` from src/chars.rs: `\t`, ` `, `!..'`, `*..[`, `]..~`, `0x80..`. -/
def CTEXT_MAP (c : Nat) : Nat :=
  if c = 9 || c = 32 || (33 ≤ c && c ≤ 39) || (42 ≤ c && c ≤ 91) ||
     (93 ≤ c && c ≤ 126) || (128 ≤ c && c ≤ 255)
  then c else 0

/-- `QUOTED_TEXT_MAP` from src/chars.rs: `\t`, ` `, `!`, `#..[`, `]..~`, `0x80..`. -/
def QUOTED_TEXT_MAP (c : Nat) : Nat :=
  if c = 9 || c = 32 || c = 33 || (35 ≤ c && c ≤ 91) ||
     (93 ≤ c && c ≤ 126) || (128 ≤ c && c ≤ 255)
  then c else 0

/-- `Config` from src/field.rs (the `map: &[u8; 256]` reference becomes a
function). -/
structure Config where
  map : Nat → Nat
  comments : Bool
  quotes : Bool
  commas : Bool

/-- `Config::validate_byte` from src/field.rs. -/
def Config.validate_byte (c : Config) (b : Nat) : Bool :=
  c.map b ≠ 0 || (c.comments && (b = 40 || b = 41)) || (c.quotes && b = 34)

inductive ValidationError where
  | Quote
  | Comment
  | Token
  | Terminated
deriving DecidableEq, Repr

/-- `Validator` from src/field.rs. `comment_stack` is `i32` in the source;
it is only ever incremented, or decremented while positive, so `Int` is a
faithful model. -/
structure Validator where
  quoted : Bool
  backslash : Bool
  comment_stack : Int
  config : Config
  error : Option ValidationError

def Validator.new (config : Config) : Validator :=
  { quoted := false, backslash := false, comment_stack := 0,
    config := config, error := none }

/-- `is_opaque_byte` from src/field.rs (`b >= 0x80` on `u8`). -/
def is_opaque_byte (b : Nat) : Bool := 128 ≤ b

/-- `Validator::advance` from src/field.rs, returning the updated validator
next to the Rust return value. Every error branch records the error
(the `err!` macro in the source stores it before returning it). -/
def Validator.advance (v : Validator) (b : Nat) :
    Validator × Except ValidationError Bool :=
  match v.error with
  | some err => (v, .error err)
  | none =>
    if v.quoted then
      if v.backslash then ({ v with backslash := false }, .ok true)
      else if b = 92 then ({ v with backslash := true }, .ok false)
      else if b = 34 then ({ v with quoted := false }, .ok false)
      else if QUOTED_TEXT_MAP b = 0 then
        ({ v with error := some .Quote }, .error .Quote)
      else (v, .ok (!is_opaque_byte b))
    else if 0 < v.comment_stack then
      if CTEXT_MAP b ≠ 0 then (v, .ok true)
      else if v.config.quotes && b = 34 then ({ v with quoted := true }, .ok false)
      else if b = 40 then
        ({ v with comment_stack := v.comment_stack + 1 }, .ok true)
      else if b = 41 then
        ({ v with comment_stack := v.comment_stack - 1 }, .ok true)
      else if is_opaque_byte b then (v, .ok false)
      else ({ v with error := some .Comment }, .error .Comment)
    else if v.config.map b ≠ 0 then (v, .ok true)
    else if v.config.quotes && b = 34 then ({ v with quoted := true }, .ok false)
    else if v.config.comments && b = 40 then
      ({ v with comment_stack := v.comment_stack + 1 }, .ok true)
    else if (v.config.commas && b = 44) || b = 13 then
      ({ v with error := some .Terminated }, .error .Terminated)
    else ({ v with error := some .Token }, .error .Token)

/-- `Validator::commented` from src/field.rs. -/
def Validator.commented (v : Validator) : Bool := decide (0 < v.comment_stack)

/-- `Validator::in_root_scope` from src/field.rs. -/
def Validator.in_root_scope (v : Validator) : Bool := !(v.quoted || v.commented)

/-- Field-level `ParsingError` from src/field.rs. -/
inductive ParsingError where
  | Malformed
  | IncorrectlyTerminated
  | NameMissing
  | ValueTooLong
  | ValueInvalidToken
  | ValueInvalidQuotedText
  | InvalidCommentCharacter
deriving DecidableEq, Repr

/-- `InvalidData` from src/field.rs. -/
structure InvalidData where
deriving DecidableEq, Repr

deriving instance DecidableEq for Except

/-- `Value` from src/field.rs (`value: Bytes` becomes the list of bytes). -/
structure Value where
  value : List Nat
  is_valid_ascii : Bool
deriving DecidableEq, Repr

/-- `write_escaped_bytes` from src/field.rs, specialised to its single call
site (`map = &QUOTED_TEXT_MAP`, `escape = b'\\'`). The source batches runs
with an `extend_from` index; the emitted bytes are each source byte, with the
escape byte inserted right before every byte missing from the map. -/
def escapeBytes : List Nat → List Nat
  | [] => []
  | b :: rest =>
    (if QUOTED_TEXT_MAP b = 0 then [92, b] else [b]) ++ escapeBytes rest

/-- One `Validator` step per byte, as a fold state for `Value::from_unquoted`:
the validator plus the `contains_opaque_data` flag (set whenever `advance`
returns anything other than `Ok(true)`). -/
def fromUnquotedStep (p : Validator × Bool) (b : Nat) : Validator × Bool :=
  match p.1.advance b with
  | (v', .ok true) => (v', p.2)
  | (v', _) => (v', true)

/-- `Value::from_unquoted` from src/field.rs. -/
def Value.from_unquoted (src : List Nat) (config : Config) : Value :=
  let is_valid_ascii := src.all (fun b => decide (b < 128))
  let walk := src.foldl fromUnquotedStep (Validator.new config, false)
  if !walk.2 && walk.1.in_root_scope then
    { value := src, is_valid_ascii := is_valid_ascii }
  else
    { value := 34 :: (escapeBytes src ++ [34]), is_valid_ascii := is_valid_ascii }

/-- The loop of `Value::from_bytes` from src/field.rs: walk the stream with
the validator, returning the index at which the value terminates. `i` is the
running byte index (the Rust `enumerate` counter); `MAX_LEN = 100_000`. -/
def valueLen (v : Validator) (i : Nat) : List Nat → Except ParsingError Nat
  | [] => .error .IncorrectlyTerminated
  | b :: rest =>
    if 100000 ≤ i then .error .ValueTooLong
    else
      match v.advance b with
      | (v', .ok _) => valueLen v' (i + 1) rest
      | (_, .error .Terminated) => .ok i
      | (_, .error .Token) => .error .ValueInvalidToken
      | (_, .error .Comment) => .error .InvalidCommentCharacter
      | (_, .error .Quote) => .error .ValueInvalidQuotedText

/-- `Value::from_bytes` from src/field.rs: the value is `bytes.split_to(i)`
at the terminating index, the terminator itself is left in the stream;
`is_valid_ascii` is the conjunction of `b < 0x80` over the bytes walked,
which (as the terminator bytes `,` and `\r` are ASCII) equals the
conjunction over the value bytes. -/
def Value.from_bytes (config : Config) (bytes : List Nat) :
    Except ParsingError (Value × List Nat) :=
  match valueLen (Validator.new config) 0 bytes with
  | .error e => .error e
  | .ok n =>
    .ok ({ value := bytes.take n,
           is_valid_ascii := (bytes.take n).all (fun b => decide (b < 128)) },
         bytes.drop n)

/-- `Value::new` from src/field.rs. Note the source computes the field
named `is_valid_ascii` with `config.validate_byte`, not with an ASCII test. -/
def Value.new (value : List Nat) (config : Config) : Value :=
  { value := value, is_valid_ascii := value.all config.validate_byte }

/-- `Value::as_str` from src/field.rs: `Some` (of the unchecked UTF-8 view of
the bytes) exactly when `is_valid_ascii` is set. -/
def Value.as_str (v : Value) : Option (List Nat) :=
  if v.is_valid_ascii then some v.value else none

/-- The loop of `Value::unquote` from src/field.rs: bytes on which `advance`
returns `Ok(true)` are kept in order, bytes with `Ok(false)` are skipped
(the source batches kept runs with an `extend_from` index), any validator
error aborts with `InvalidData`. -/
def unquoteAux (v : Validator) : List Nat → Except InvalidData (List Nat)
  | [] => .ok []
  | b :: rest =>
    match v.advance b with
    | (v', .ok true) =>
      match unquoteAux v' rest with
      | .ok l => .ok (b :: l)
      | .error e => .error e
    | (v', .ok false) => unquoteAux v' rest
    | (_, .error _) => .error ⟨⟩

/-- `Value::unquote` from src/field.rs. -/
def Value.unquote (v : Value) (config : Config) : Except InvalidData (List Nat) :=
  unquoteAux (Validator.new config) v.value

/-- `Values` from src/field.rs. The source also stores the `Config` given at
construction; every operation below receives that same config explicitly
instead (at the single stateful use, `Fields::from_bytes`, the stored config
is always `config_for_name(name)` for the entry's name). -/
structure ValuesM where
  first : Value
  extra : List Value
deriving DecidableEq, Repr

/-- `Values::new` from src/field.rs. -/
def ValuesM.new (first : List Nat) (config : Config) : ValuesM :=
  { first := Value.new first config, extra := [] }

/-- `Values::push` from src/field.rs. -/
def ValuesM.push (vs : ValuesM) (value : List Nat) (config : Config) : ValuesM :=
  { vs with extra := vs.extra ++ [Value.new value config] }

/-- `advance_while(|&b| b == b' ')` on the byte stream. -/
def dropSpaces (l : List Nat) : List Nat := l.dropWhile (fun b => b == 32)

/-- The loop of `Values::extend_from_bytes` from src/field.rs: repeatedly
skip spaces, parse one value, and continue while a `,` follows. The `fuel`
argument only bounds the recursion; every loop iteration that continues
consumes the separating comma, so any fuel above the stream length is never
exhausted (the `fuel = 0` branch is unreachable from `Values.from_bytes` and
`Fields.from_bytes`, which pass `length + 1`). -/
def extendFromBytes (config : Config) :
    Nat → List Value → List Nat → Except ParsingError (List Value × List Nat)
  | 0, _, _ => .error .Malformed
  | fuel + 1, extra, bytes =>
    match Value.from_bytes config (dropSpaces bytes) with
    | .error e => .error e
    | .ok (v, rest) =>
      match rest with
      | 44 :: rest' => extendFromBytes config fuel (extra ++ [v]) rest'
      | _ => .ok (extra ++ [v], rest)

/-- `Values::from_bytes` from src/field.rs. -/
def ValuesM.from_bytes (config : Config) (bytes : List Nat) :
    Except ParsingError (ValuesM × List Nat) :=
  match Value.from_bytes config (dropSpaces bytes) with
  | .error e => .error e
  | .ok (first, rest) =>
    match rest with
    | 44 :: rest' =>
      match extendFromBytes config (rest'.length + 1) [] rest' with
      | .error e => .error e
      | .ok (extra, rest2) => .ok ({ first := first, extra := extra }, rest2)
    | _ => .ok ({ first := first, extra := [] }, rest)

def strBytes (s : String) : List Nat := s.data.map Char.toNat

/-- `DATE_FIELDS` from src/field.rs. -/
def DATE_FIELDS : List (List Nat) :=
  [strBytes "Date", strBytes "Last-Modified", strBytes "Expires"]

/-- `config_for_name` from src/field.rs. -/
def config_for_name (name : List Nat) : Config :=
  { map := if name ∈ DATE_FIELDS then DATE_MAP else TOKEN_MAP,
    comments := true, quotes := true, commas := true }

/-- `field_name_from_bytes` from src/field.rs: split off the leading run of
tchar bytes, capped at 1024. -/
def fieldNameFromBytes (bytes : List Nat) : List Nat × List Nat :=
  let n := min (bytes.takeWhile (fun c => TCHAR_MAP c ≠ 0)).length 1024
  (bytes.take n, bytes.drop n)

/-- `Fields` from src/field.rs: the `IndexMap` becomes an insertion-ordered
association list with pairwise-distinct keys (lookups find the unique entry,
inserts append at the end). -/
abbrev FieldsM := List (List Nat × ValuesM)

def startsWithL : List Nat → List Nat → Bool
  | [], _ => true
  | _ :: _, [] => false
  | a :: p, b :: l => a == b && startsWithL p l

/-- `IndexMap::get` on the association-list model. -/
def fieldsGet (f : FieldsM) (name : List Nat) : Option ValuesM :=
  match f.find? (fun e => e.1 == name) with
  | some e => some e.2
  | none => none

/-- `IndexMap::get_mut`-then-assign on the association-list model: replace
the first entry with the given name, in place. -/
def fieldsUpdateFirst : FieldsM → List Nat → ValuesM → FieldsM
  | [], _, _ => []
  | e :: rest, name, vs =>
    if e.1 == name then (e.1, vs) :: rest else e :: fieldsUpdateFirst rest name vs

/-- The loop of `Fields::from_bytes` from src/field.rs. As for
`extendFromBytes`, `fuel` only bounds the recursion: every iteration
consumes the (non-empty) field name, the colon and the line's CRLF, so the
`length + 1` fuel passed by `FieldsM.from_bytes` is never exhausted. -/
def fieldsLoop : Nat → FieldsM → List Nat → Except ParsingError (FieldsM × List Nat)
  | 0, _, _ => .error .Malformed
  | fuel + 1, acc, bytes =>
    if !(startsWithL CRLFb bytes) && (bytes.head?.map isAsciiAlphanumericB).getD false then
      match fieldNameFromBytes bytes with
      | (name, bytes1) =>
        if name = [] then .error .NameMissing
        else
          match bytes1 with
          | 58 :: bytes2 =>
            let bytes3 := if bytes2.head? = some 32 then bytes2.tail else bytes2
            let config := config_for_name name
            match fieldsGet acc name with
            | some vs =>
              match extendFromBytes config (bytes3.length + 1) vs.extra bytes3 with
              | .error e => .error e
              | .ok (extra', rest) =>
                match rest with
                | 13 :: 10 :: rest' =>
                  fieldsLoop fuel
                    (fieldsUpdateFirst acc name { vs with extra := extra' }) rest'
                | _ => .error .Malformed
            | none =>
              match ValuesM.from_bytes config bytes3 with
              | .error e => .error e
              | .ok (vs, rest) =>
                match rest with
                | 13 :: 10 :: rest' => fieldsLoop fuel (acc ++ [(name, vs)]) rest'
                | _ => .error .Malformed
          | _ => .error .Malformed
    else
      if startsWithL CRLFb bytes then .ok (acc, bytes.drop 2)
      else .error .IncorrectlyTerminated

/-- `Fields::from_bytes` from src/field.rs. -/
def FieldsM.from_bytes (bytes : List Nat) : Except ParsingError (FieldsM × List Nat) :=
  fieldsLoop (bytes.length + 1) [] bytes

/-- `Values::write_to_buffer` from src/field.rs: first value, then `", "`
before each extra value. -/
def valuesWriteToBuffer (vs : ValuesM) : List Nat :=
  vs.first.value ++ (vs.extra.map (fun v => 44 :: 32 :: v.value)).foldr (· ++ ·) []

/-- `write_field_to_buffer` from src/field.rs. -/
def writeFieldToBuffer (name : List Nat) (vs : ValuesM) : List Nat :=
  name ++ 58 :: 32 :: valuesWriteToBuffer vs

/-- `Fields::write_to_buffer` from src/field.rs: each entry's line ending in
CRLF, then a trailing CRLF only when the collection is non-empty. -/
def fieldsWriteToBuffer (f : FieldsM) : List Nat :=
  (f.map (fun e => writeFieldToBuffer e.1 e.2 ++ CRLFb)).foldr (· ++ ·) [] ++
    (if f.isEmpty then [] else CRLFb)

/-- `Fields::add_header_value` from src/field.rs. -/
def fieldsAddHeaderValue (f : FieldsM) (name value : List Nat) : FieldsM :=
  match fieldsGet f name with
  | some vs => fieldsUpdateFirst f name (vs.push value (config_for_name name))
  | none => f ++ [(name, ValuesM.new value (config_for_name name))]

/-- `version::Malformed` from src/version.rs. -/
inductive VersionError where
  | Malformed
deriving DecidableEq, Repr

/-- `Version` from src/version.rs (`Version(pub u8, pub u8)`). -/
structure VersionM where
  major : Nat
  minor : Nat
deriving DecidableEq, Repr

/-- `ascii_digit_to_u8` from src/transcode.rs: `byte & 0xcf`. -/
def ascii_digit_to_u8 (byte : Nat) : Nat := byte &&& 0xcf

def HTTPSLASH : List Nat := strBytes "HTTP/"

/-- `Version::from_bytes` from src/version.rs. -/
def versionFromBytes (bytes : List Nat) :
    Except VersionError (VersionM × List Nat) :=
  if bytes.length < 6 then .error .Malformed
  else if !(startsWithL HTTPSLASH bytes) then .error .Malformed
  else
    let b := bytes.drop 5
    if 3 ≤ b.length && (b.getD 1 0 == 46) then
      let major_digit := ascii_digit_to_u8 (b.getD 0 0)
      let minor_digit := ascii_digit_to_u8 (b.getD 2 0)
      if major_digit < 10 && minor_digit < 10 then
        .ok ({ major := major_digit, minor := minor_digit }, b.drop 3)
      else .error .Malformed
    else
      let major_digit := ascii_digit_to_u8 (b.getD 0 0)
      if major_digit < 10 then .ok ({ major := major_digit, minor := 0 }, b.drop 1)
      else .error .Malformed

/-- `Method` from src/method.rs. -/
inductive MethodM where
  | Head | Get | Post | Put | Delete | Patch | Options | Connect | Trace
deriving DecidableEq, Repr

/-- `Method::as_bytes` from src/method.rs. -/
def MethodM.as_bytes : MethodM → List Nat
  | .Get => strBytes "GET"
  | .Head => strBytes "HEAD"
  | .Post => strBytes "POST"
  | .Put => strBytes "PUT"
  | .Delete => strBytes "DELETE"
  | .Patch => strBytes "PATCH"
  | .Options => strBytes "OPTIONS"
  | .Connect => strBytes "CONNECT"
  | .Trace => strBytes "TRACE"

/-- `Method::from_bytes` from src/method.rs: test the literal prefixes in
the source's order, first match wins and is consumed. -/
def methodFromBytes (bytes : List Nat) : Option (MethodM × List Nat) :=
  if startsWithL MethodM.Get.as_bytes bytes then some (.Get, bytes.drop 3)
  else if startsWithL MethodM.Head.as_bytes bytes then some (.Head, bytes.drop 4)
  else if startsWithL MethodM.Post.as_bytes bytes then some (.Post, bytes.drop 4)
  else if startsWithL MethodM.Put.as_bytes bytes then some (.Put, bytes.drop 3)
  else if startsWithL MethodM.Delete.as_bytes bytes then some (.Delete, bytes.drop 6)
  else if startsWithL MethodM.Patch.as_bytes bytes then some (.Patch, bytes.drop 5)
  else if startsWithL MethodM.Options.as_bytes bytes then some (.Options, bytes.drop 7)
  else if startsWithL MethodM.Connect.as_bytes bytes then some (.Connect, bytes.drop 7)
  else if startsWithL MethodM.Trace.as_bytes bytes then some (.Trace, bytes.drop 5)
  else none

/-- `code::ParsingError` from src/response/code.rs. -/
inductive CodeError where
  | InvalidCode
  | MalformedCode
deriving DecidableEq, Repr

/-- `Code` from src/response/code.rs: the explicit enumerated set. -/
inductive CodeM where
  | Continue | SwitchingProtocols | Processing | EarlyHints
  | Ok | Created | Accepted | NonAuthoritativeInformation | NoContent
  | ResetContent | PartialContent | MultiStatus | AlreadyReported | IMUsed
  | MultipleChoices | MovedPermanently | Found | SeeOther | NotModified
  | UseProxy | TemporaryRedirect | PermanentRedirect
  | BadRequest | Unauthorized | PaymentRequired | Forbidden | NotFound
  | MethodNotAllowed | NotAcceptable | ProxyAuthenticationRequired
  | RequestTimeout | Conflict | Gone | LengthRequired | PreconditionFailed
  | PayloadTooLarge | URITooLong | UnsupportedMediaType | RangeNotSatisfiable
  | ExpectationFailed | ImATeapot | MisdirectedRequest | UnprocessableContent
  | Locked | FailedDependency | TooEarly | UpgradeRequired
  | PreconditionRequired | TooManyRequests | RequestHeaderFieldsTooLarge
  | UnavailableForLegalReasons
  | InternalServerError | NotImplemented | BadGateway | ServiceUnavailable
  | GatewayTimeout | HTTPVersionNotSupported | VariantAlsoNegotiates
  | InsufficientStorage | LoopDetected | NotExtended
  | NetworkAuthenticationRequired
deriving DecidableEq, Repr

/-- `Code::as_str` from src/response/code.rs, as wire bytes
(`Code::as_bytes`). -/
def CodeM.as_bytes : CodeM → List Nat
  | .Continue => strBytes "100 Continue"
  | .SwitchingProtocols => strBytes "101 Switching Protocols"
  | .Processing => strBytes "102 Processing"
  | .EarlyHints => strBytes "103 Early Hints"
  | .Ok => strBytes "200 OK"
  | .Created => strBytes "201 Created"
  | .Accepted => strBytes "202 Accepted"
  | .NonAuthoritativeInformation => strBytes "203 Non-Authoritative Information"
  | .NoContent => strBytes "204 No Content"
  | .ResetContent => strBytes "205 Reset Content"
  | .PartialContent => strBytes "206 Partial Content"
  | .MultiStatus => strBytes "207 Multi-Status"
  | .AlreadyReported => strBytes "208 Already Reported"
  | .IMUsed => strBytes "226 IM Used"
  | .MultipleChoices => strBytes "300 Multiple Choices"
  | .MovedPermanently => strBytes "301 Moved Permanently"
  | .Found => strBytes "302 Found"
  | .SeeOther => strBytes "303 See Other"
  | .NotModified => strBytes "304 Not Modified"
  | .UseProxy => strBytes "305 Use Proxy"
  | .TemporaryRedirect => strBytes "307 Temporary Redirect"
  | .PermanentRedirect => strBytes "308 Permanent Redirect"
  | .BadRequest => strBytes "400 Bad Request"
  | .Unauthorized => strBytes "401 Unauthorized"
  | .PaymentRequired => strBytes "402 Payment Required"
  | .Forbidden => strBytes "403 Forbidden"
  | .NotFound => strBytes "404 Not Found"
  | .MethodNotAllowed => strBytes "405 Method Not Allowed"
  | .NotAcceptable => strBytes "406 Not Acceptable"
  | .ProxyAuthenticationRequired => strBytes "407 Proxy Authentication Required"
  | .RequestTimeout => strBytes "408 Request Timeout"
  | .Conflict => strBytes "409 Conflict"
  | .Gone => strBytes "410 Gone"
  | .LengthRequired => strBytes "411 Length Required"
  | .PreconditionFailed => strBytes "412 Precondition Failed"
  | .PayloadTooLarge => strBytes "413 Payload Too Large"
  | .URITooLong => strBytes "414 URI Too Long"
  | .UnsupportedMediaType => strBytes "415 Unsupported Media Type"
  | .RangeNotSatisfiable => strBytes "416 Range Not Satisfiable"
  | .ExpectationFailed => strBytes "417 Expectation Failed"
  | .ImATeapot => strBytes "418 I'm a teapot"
  | .MisdirectedRequest => strBytes "421 Misdirected Request"
  | .UnprocessableContent => strBytes "422 Unprocessable Content"
  | .Locked => strBytes "423 Locked"
  | .FailedDependency => strBytes "424 Failed Dependency"
  | .TooEarly => strBytes "425 Too Early"
  | .UpgradeRequired => strBytes "426 Upgrade Required"
  | .PreconditionRequired => strBytes "428 Precondition Required"
  | .TooManyRequests => strBytes "429 Too Many Requests"
  | .RequestHeaderFieldsTooLarge => strBytes "431 Request Header Fields Too Large"
  | .UnavailableForLegalReasons => strBytes "451 Unavailable For Legal Reasons"
  | .InternalServerError => strBytes "500 Internal Server Error"
  | .NotImplemented => strBytes "501 Not Implemented"
  | .BadGateway => strBytes "502 Bad Gateway"
  | .ServiceUnavailable => strBytes "503 Service Unavailable"
  | .GatewayTimeout => strBytes "504 Gateway Timeout"
  | .HTTPVersionNotSupported => strBytes "505 HTTP Version Not Supported"
  | .VariantAlsoNegotiates => strBytes "506 Variant Also Negotiates"
  | .InsufficientStorage => strBytes "507 Insufficient Storage"
  | .LoopDetected => strBytes "508 Loop Detected"
  | .NotExtended => strBytes "510 Not Extended"
  | .NetworkAuthenticationRequired => strBytes "511 Network Authentication Required"

/-- `Code::from_raw` from src/response/code.rs. The source checks
`code >= 100`, probes the 500-entry `LOOKUP` bitset at `code - 100` and
reinterprets the validated integer as the enum tag; this is the equivalent
explicit integer-to-variant table. -/
def CodeM.from_raw : Nat → Option CodeM
  | 100 => some .Continue
  | 101 => some .SwitchingProtocols
  | 102 => some .Processing
  | 103 => some .EarlyHints
  | 200 => some .Ok
  | 201 => some .Created
  | 202 => some .Accepted
  | 203 => some .NonAuthoritativeInformation
  | 204 => some .NoContent
  | 205 => some .ResetContent
  | 206 => some .PartialContent
  | 207 => some .MultiStatus
  | 208 => some .AlreadyReported
  | 226 => some .IMUsed
  | 300 => some .MultipleChoices
  | 301 => some .MovedPermanently
  | 302 => some .Found
  | 303 => some .SeeOther
  | 304 => some .NotModified
  | 305 => some .UseProxy
  | 307 => some .TemporaryRedirect
  | 308 => some .PermanentRedirect
  | 400 => some .BadRequest
  | 401 => some .Unauthorized
  | 402 => some .PaymentRequired
  | 403 => some .Forbidden
  | 404 => some .NotFound
  | 405 => some .MethodNotAllowed
  | 406 => some .NotAcceptable
  | 407 => some .ProxyAuthenticationRequired
  | 408 => some .RequestTimeout
  | 409 => some .Conflict
  | 410 => some .Gone
  | 411 => some .LengthRequired
  | 412 => some .PreconditionFailed
  | 413 => some .PayloadTooLarge
  | 414 => some .URITooLong
  | 415 => some .UnsupportedMediaType
  | 416 => some .RangeNotSatisfiable
  | 417 => some .ExpectationFailed
  | 418 => some .ImATeapot
  | 421 => some .MisdirectedRequest
  | 422 => some .UnprocessableContent
  | 423 => some .Locked
  | 424 => some .FailedDependency
  | 425 => some .TooEarly
  | 426 => some .UpgradeRequired
  | 428 => some .PreconditionRequired
  | 429 => some .TooManyRequests
  | 431 => some .RequestHeaderFieldsTooLarge
  | 451 => some .UnavailableForLegalReasons
  | 500 => some .InternalServerError
  | 501 => some .NotImplemented
  | 502 => some .BadGateway
  | 503 => some .ServiceUnavailable
  | 504 => some .GatewayTimeout
  | 505 => some .HTTPVersionNotSupported
  | 506 => some .VariantAlsoNegotiates
  | 507 => some .InsufficientStorage
  | 508 => some .LoopDetected
  | 510 => some .NotExtended
  | 511 => some .NetworkAuthenticationRequired
  | _ => none

def isAsciiDigitB (c : Nat) : Bool := 48 ≤ c && c ≤ 57

/-- `str::from_utf8(..)` followed by `str::parse::<u16>()`: an optional
leading `+`, then one or more ASCII digits, value below 2^16 (a parse or
UTF-8 error is `none`; both call sites map any failure to one fixed
result). -/
def parseU16Ascii (l : List Nat) : Option Nat :=
  let l' := match l with
    | 43 :: rest => rest
    | _ => l
  if l' ≠ [] && l'.all isAsciiDigitB then
    let v := l'.foldl (fun a c => a * 10 + (c - 48)) 0
    if v < 65536 then some v else none
  else none

/-- `Code::from_bytes` from src/response/code.rs. -/
def codeFromBytes (bytes : List Nat) : Except CodeError (CodeM × List Nat) :=
  if bytes.length < 3 then .error .InvalidCode
  else if bytes.length < 5 then .error .MalformedCode
  else
    match parseU16Ascii (bytes.take 3) with
    | none => .error .InvalidCode
    | some raw =>
      match CodeM.from_raw raw with
      | none => .error .InvalidCode
      | some code =>
        if startsWithL code.as_bytes bytes then
          .ok (code, bytes.drop code.as_bytes.length)
        else .error .MalformedCode

/-- `request::ParsingError` from src/request.rs. -/
inductive ReqError where
  | VersionMalformed
  | MethodUnsupported
  | MalformedStartLine
  | InvalidResource
  | Header (e : ParsingError)
  | BodyLongerThanStream
  | Trailer (e : ParsingError)
deriving DecidableEq, Repr

/-- `response::ParsingError` from src/response.rs. -/
inductive RespError where
  | VersionMalformed
  | Code (e : CodeError)
  | MalformedStartLine
  | Header (e : ParsingError)
  | BodyLongerThanStream
  | Trailer (e : ParsingError)
deriving DecidableEq, Repr

/-- Outcome of a parse that may panic: `Bytes::split_to(at)` panics when
`at` exceeds the buffer length, and `Request::from_bytes` /
`Response::from_bytes` reach such a call; `panicked` models that hard
failure. -/
inductive POutcome (ε α : Type) where
  | ok (a : α)
  | err (e : ε)
  | panicked
deriving DecidableEq, Repr

/-- `StartLine` from src/request.rs. -/
structure StartLineM where
  method : MethodM
  path : List Nat
  version : VersionM
deriving DecidableEq, Repr

/-- `StartLine::from_bytes` from src/request.rs. -/
def startLineFromBytes (bytes : List Nat) :
    Except ReqError (StartLineM × List Nat) :=
  match methodFromBytes bytes with
  | none => .error .MethodUnsupported
  | some (method, b1) =>
    match b1 with
    | 32 :: b2 =>
      let path := b2.takeWhile (fun c => URI_MAP c ≠ 0)
      let b3 := b2.dropWhile (fun c => URI_MAP c ≠ 0)
      if path = [] then .error .InvalidResource
      else
        match b3 with
        | 32 :: b4 =>
          match versionFromBytes b4 with
          | .error _ => .error .VersionMalformed
          | .ok (version, b5) =>
            if startsWithL CRLFb b5 then
              .ok ({ method := method, path := path, version := version }, b5.drop 2)
            else .error .MalformedStartLine
        | _ => .error .MalformedStartLine
    | _ => .error .MalformedStartLine

/-- `usize::from_str` on the UTF-8 view of the bytes, with every failure
(invalid UTF-8, empty, non-digit, overflow past `usize::MAX`) collapsed to 0
by the source's `unwrap_or` chain. -/
def parseUsizeOr0 (l : List Nat) : Nat :=
  let l' := match l with
    | 43 :: rest => rest
    | _ => l
  if l' ≠ [] && l'.all isAsciiDigitB then
    let v := l'.foldl (fun a c => a * 10 + (c - 48)) 0
    if v < 18446744073709551616 then v else 0
  else 0

/-- The Content-Length extraction shared by `Request::from_bytes` and
`Response::from_bytes`: the first value of the `Content-Length` header,
or 0 when the header is missing or unparsable. -/
def contentLengthOf (headers : FieldsM) : Nat :=
  match fieldsGet headers (strBytes "Content-Length") with
  | none => 0
  | some vs => parseUsizeOr0 vs.first.value

/-- `Request` from src/request.rs. -/
structure RequestM where
  method : MethodM
  path : List Nat
  version : VersionM
  headers : FieldsM
  body : List Nat
  trailers : FieldsM
deriving DecidableEq, Repr

/-- `Request::from_bytes` from src/request.rs. The final `split_to` models
`bytes.split_to(content_length)`: it takes `content_length` bytes when they
exist and panics otherwise (the preceding check only rejects
`content_length < bytes.len()`). -/
def requestFromBytes (bytes : List Nat) : POutcome ReqError RequestM :=
  match startLineFromBytes bytes with
  | .error e => .err e
  | .ok (sl, b1) =>
    match FieldsM.from_bytes b1 with
    | .error e => .err (.Header e)
    | .ok (headers, b2) =>
      let content_length := contentLengthOf headers
      if content_length < b2.length then .err .BodyLongerThanStream
      else if content_length ≤ b2.length then
        .ok { method := sl.method, path := sl.path, version := sl.version,
              headers := headers, body := b2.take content_length, trailers := [] }
      else .panicked

/-- `Response` from src/response.rs. -/
structure ResponseM where
  version : VersionM
  code : CodeM
  headers : FieldsM
  body : List Nat
  trailers : FieldsM
deriving DecidableEq, Repr

/-- The start-line phase of `Response::from_bytes` from src/response.rs
(inline in the source): version, a space, the code, CRLF. -/
def respStartLineFromBytes (bytes : List Nat) :
    Except RespError ((VersionM × CodeM) × List Nat) :=
  match versionFromBytes bytes with
  | .error _ => .error .VersionMalformed
  | .ok (version, b1) =>
    match b1 with
    | 32 :: b2 =>
      match codeFromBytes b2 with
      | .error e => .error (.Code e)
      | .ok (code, b3) =>
        if startsWithL CRLFb b3 then .ok ((version, code), b3.drop 2)
        else .error .MalformedStartLine
    | _ => .error .MalformedStartLine

/-- `Response::from_bytes` from src/response.rs; the body step is the same
asymmetric check-then-`split_to` as in `Request::from_bytes`. -/
def responseFromBytes (bytes : List Nat) : POutcome RespError ResponseM :=
  match respStartLineFromBytes bytes with
  | .error e => .err e
  | .ok ((version, code), b1) =>
    match FieldsM.from_bytes b1 with
    | .error e => .err (.Header e)
    | .ok (headers, b2) =>
      let content_length := contentLengthOf headers
      if content_length < b2.length then .err .BodyLongerThanStream
      else if content_length ≤ b2.length then
        .ok { version := version, code := code, headers := headers,
              body := b2.take content_length, trailers := [] }
      else .panicked

/-- The generic value configuration built by `config_for_name` for any
non-date field name. -/
def defaultConfig : Config :=
  { map := TOKEN_MAP, comments := true, quotes := true, commas := true }

/-- The value configuration built by `config_for_name` for `Date`,
`Last-Modified` and `Expires`. -/
def dateConfig : Config :=
  { map := DATE_MAP, comments := true, quotes := true, commas := true }

/-- A caller-supplied configuration whose base map admits bytes above 0x7F
(the comment-text table), with comments/quotes/commas off. -/
def ctextOnlyConfig : Config :=
  { map := CTEXT_MAP, comments := false, quotes := false, commas := false }

theorem config_for_name_default (name : List Nat) (h : ¬ name ∈ DATE_FIELDS) :
    config_for_name name = defaultConfig := by
  simp [config_for_name, defaultConfig, h]

theorem config_for_name_date (name : List Nat) (h : name ∈ DATE_FIELDS) :
    config_for_name name = dateConfig := by
  simp [config_for_name, dateConfig, h]

/-- Claim C10: the claim says `Value::as_str` returns `Some` only when every
stored byte is below 0x80, for every `Value` reachable through the public
constructors. The code violates this: `Value::new` (reached through
`Values::new`) fills the `is_valid_ascii` field with
`config.validate_byte`, so under a config whose map admits bytes ≥ 0x80
(here the comment-text table) the single byte 0xFF yields
`is_valid_ascii = true` and `as_str` hands the non-UTF-8 byte to
`str::from_utf8_unchecked`. This contradicts the safety comment in
`as_str` ("it must always be checked before a value is created"), so the
claim is right and the code is wrong. -/
theorem claim_C10_as_str_bug :
    (ValuesM.new [255] ctextOnlyConfig).first = Value.new [255] ctextOnlyConfig ∧
    (Value.new [255] ctextOnlyConfig).is_valid_ascii = true ∧
    (Value.new [255] ctextOnlyConfig).as_str = some [255] ∧
    ¬ (255 : Nat) < 128 := by
  refine ⟨rfl, by decide, by decide, by decide⟩

/-- Claim C5 counterexample: under the Date configuration the literal
content `Sat, 04 May 1996` recovered by unquoting is representable
unquoted (every byte is in the date map), so `Value::from_unquoted` stores
it as-is and does not reproduce the original quoted wire form. -/
theorem claim_C5_counterexample :
    (Value.from_unquoted (strBytes "Sat, 04 May 1996") dateConfig).value =
      strBytes "Sat, 04 May 1996" ∧
    strBytes "Sat, 04 May 1996" ≠ strBytes "\"Sat, 04 May 1996\"" := by
  refine ⟨by decide, by decide⟩

/-- Claim C5 (amended): parsing then unquoting `"Sat, 04 May 1996"` under
the Date configuration recovers the literal content, but rebuilding with
`Value::from_unquoted` yields the *unquoted* form (the content is fully
representable under the date map), not the original quoted wire form;
for `"with a \\ backslash and a \" quote"` under the default configuration,
unquoting recovers the content with escapes removed and rebuilding
reproduces the original quoted wire form byte-for-byte. -/
theorem claim_C5_quoting_examples :
    Value.from_bytes dateConfig (strBytes "\"Sat, 04 May 1996\"" ++ CRLFb) =
      .ok ({ value := strBytes "\"Sat, 04 May 1996\"", is_valid_ascii := true },
           CRLFb) ∧
    Value.unquote { value := strBytes "\"Sat, 04 May 1996\"",
                    is_valid_ascii := true } dateConfig =
      .ok (strBytes "Sat, 04 May 1996") ∧
    (Value.from_unquoted (strBytes "Sat, 04 May 1996") dateConfig).value =
      strBytes "Sat, 04 May 1996" ∧
    Value.from_bytes defaultConfig
        (strBytes "\"with a \\\\ backslash and a \\\" quote\"" ++ CRLFb) =
      .ok ({ value := strBytes "\"with a \\\\ backslash and a \\\" quote\"",
             is_valid_ascii := true }, CRLFb) ∧
    Value.unquote { value := strBytes "\"with a \\\\ backslash and a \\\" quote\"",
                    is_valid_ascii := true } defaultConfig =
      .ok (strBytes "with a \\ backslash and a \" quote") ∧
    (Value.from_unquoted (strBytes "with a \\ backslash and a \" quote")
        defaultConfig).value =
      strBytes "\"with a \\\\ backslash and a \\\" quote\"" := by
  refine ⟨by decide, by decide, by decide, by decide, by decide, by decide⟩

/-- Claim C4 counterexample: the claim says unquote drops comment
parentheses and keeps opaque bytes. In the code, comment parentheses are
classified `Ok(true)` and kept (`(a)` unquotes to `(a)`, not `a`), while an
opaque byte inside a quoted string is classified `Ok(false)` and dropped
(`"\x80"` unquotes to the empty sequence, not to the opaque byte). -/
theorem claim_C4_counterexample :
    Value.unquote { value := strBytes "(a)", is_valid_ascii := true }
        defaultConfig = .ok (strBytes "(a)") ∧
    strBytes "(a)" ≠ [97] ∧
    Value.unquote { value := [34, 128, 34], is_valid_ascii := false }
        defaultConfig = .ok [] ∧
    ([] : List Nat) ≠ [128] := by
  refine ⟨by decide, by decide, by decide, by decide⟩

/-- Claim C2 counterexample: the empty `Fields` (built from no name/value
pairs) serializes to the empty byte sequence, and parsing the empty byte
sequence fails with `IncorrectlyTerminated` (the end-of-fields CRLF is
missing), so the round-trip does not return an equal `Fields`. -/
theorem claim_C2_counterexample :
    fieldsWriteToBuffer ([] : FieldsM) = [] ∧
    FieldsM.from_bytes (fieldsWriteToBuffer ([] : FieldsM)) =
      .error .IncorrectlyTerminated := by
  refine ⟨by decide, by decide⟩

/-- Claim C6 counterexample: the claim says `Version::from_bytes` returns
`Malformed` whenever the byte read as a version digit is not an ASCII digit.
But the digit is decoded with `byte & 0xcf`: for the non-digit byte `!`
(0x21) the mask gives 1 < 10, so `HTTP/!` parses successfully as
version 1.0. -/
theorem claim_C6_counterexample :
    versionFromBytes (strBytes "HTTP/!") =
      .ok ({ major := 1, minor := 0 }, []) ∧
    ¬ (48 ≤ 33 ∧ (33 : Nat) ≤ 57) := by
  refine ⟨by decide, by decide⟩

/-- Claim C7: every status code in the enumerated set round-trips through
`from_bytes` applied to its `as_bytes` wire form; `"200"` (three digits,
no reason phrase) fails with `MalformedCode` (its length is below the
5-byte minimum); `"000 Nonexistent"` fails with `InvalidCode` (000 is
below 100, hence not a valid code). -/
theorem claim_C7_code_roundtrip :
    (∀ c : CodeM, codeFromBytes c.as_bytes = .ok (c, [])) ∧
    codeFromBytes (strBytes "200") = .error .MalformedCode ∧
    codeFromBytes (strBytes "000 Nonexistent") = .error .InvalidCode := by
  refine ⟨fun c => ?_, by decide, by decide⟩
  cases c <;> decide

/-- Once `Validator::advance` has returned an error, the stored `error`
field holds that same error. -/
theorem advance_error_recorded (v : Validator) (b : Nat) (e : ValidationError)
    (h : (v.advance b).2 = .error e) : (v.advance b).1.error = some e := by
  rcases hv : v.error with _ | err
  · simp only [Validator.advance, hv] at h ⊢
    split_ifs at h ⊢ <;> simp_all
  · simp only [Validator.advance, hv] at h ⊢
    cases h
    rfl

/-- A validator whose `error` field is set returns that error regardless of
the byte. -/
theorem advance_of_error (v : Validator) (b : Nat) (e : ValidationError)
    (h : v.error = some e) : (v.advance b).2 = .error e := by
  simp only [Validator.advance, h]

/-- Claim C8: for every validator configuration and byte sequence, once
`Validator::advance` has returned an error, every subsequent call returns
that same error regardless of the byte passed: the validator is poisoned
with no recovery. -/
theorem claim_C8_validator_poisoned (v : Validator) (b b' : Nat)
    (e : ValidationError) (h : (v.advance b).2 = .error e) :
    ((v.advance b).1.advance b').2 = .error e :=
  advance_of_error _ _ _ (advance_error_recorded v b e h)

/-- Witness for claim C8 at a concrete input: byte 0 is invalid at root
under the default configuration, and the poisoned validator re-reports
`Token` on a subsequent valid byte. -/
theorem claim_C8_validator_poisoned_witness :
    (((Validator.new defaultConfig).advance 0).2 = .error .Token) ∧
    ((((Validator.new defaultConfig).advance 0).1.advance 65).2 =
      .error .Token) :=
  ⟨by decide, claim_C8_validator_poisoned (Validator.new defaultConfig) 0 65
    .Token (by decide)⟩

theorem HTTPSLASH_eq : HTTPSLASH = [72, 84, 84, 80, 47] := by decide

theorem startsWithL_append (p l : List Nat) : startsWithL p (p ++ l) = true := by
  induction p with
  | nil => rfl
  | cons a p ih => simp [startsWithL, ih]

/-- Claim C6 (amended): after the literal `HTTP/`, the version digits are
decoded with `ascii_digit_to_u8`, i.e. `byte & 0xcf`, and a digit position
is accepted exactly when that masked value is below 10 — which holds for
every byte below 0x40 whose low nibble is below 10 (including the
non-digits 0x00–0x09, 0x10–0x19 and 0x20–0x29), not only for the ASCII
digits 0x30–0x39. The parse returns `Malformed` exactly when some digit
position fails the masked test, and otherwise succeeds with the masked
values as major/minor (minor 0 in the single-digit form). -/
theorem claim_C6_amended :
    (∀ b : Nat, b < 256 → (ascii_digit_to_u8 b < 10 ↔ (b < 64 ∧ b % 16 < 10))) ∧
    (∀ rest : List Nat, rest ≠ [] →
      versionFromBytes (HTTPSLASH ++ rest) =
        (if 3 ≤ rest.length ∧ rest.getD 1 0 = 46 then
          (if ascii_digit_to_u8 (rest.getD 0 0) < 10 ∧
              ascii_digit_to_u8 (rest.getD 2 0) < 10 then
            .ok ({ major := ascii_digit_to_u8 (rest.getD 0 0),
                   minor := ascii_digit_to_u8 (rest.getD 2 0) }, rest.drop 3)
          else .error .Malformed)
        else
          (if ascii_digit_to_u8 (rest.getD 0 0) < 10 then
            .ok ({ major := ascii_digit_to_u8 (rest.getD 0 0), minor := 0 },
                 rest.drop 1)
          else .error .Malformed))) := by
  constructor
  · decide
  · intro rest h
    have hlen : 1 ≤ rest.length := by
      cases rest with
      | nil => simp at h
      | cons a l => simp
    have h6 : ¬ (HTTPSLASH ++ rest).length < 6 := by
      rw [HTTPSLASH_eq]
      simp only [List.length_append, List.length_cons, List.length_nil]
      omega
    have hsw : startsWithL HTTPSLASH (HTTPSLASH ++ rest) = true :=
      startsWithL_append _ _
    have hdrop : (HTTPSLASH ++ rest).drop 5 = rest := by
      rw [HTTPSLASH_eq]; rfl
    simp only [versionFromBytes, if_neg h6, hsw, Bool.not_true, Bool.false_eq_true,
      if_false, hdrop]
    by_cases hc : 3 ≤ rest.length ∧ rest.getD 1 0 = 46
    · rw [if_pos hc,
        if_pos (show (decide (3 ≤ rest.length) && (rest.getD 1 0 == 46)) = true by
          simp only [Bool.and_eq_true, decide_eq_true_eq, beq_iff_eq]
          exact hc)]
      by_cases hd : ascii_digit_to_u8 (rest.getD 0 0) < 10 ∧
          ascii_digit_to_u8 (rest.getD 2 0) < 10
      · rw [if_pos hd,
          if_pos (show (decide (ascii_digit_to_u8 (rest.getD 0 0) < 10) &&
              decide (ascii_digit_to_u8 (rest.getD 2 0) < 10)) = true by
            simp only [Bool.and_eq_true, decide_eq_true_eq]
            exact hd)]
      · rw [if_neg hd,
          if_neg (show ¬ (decide (ascii_digit_to_u8 (rest.getD 0 0) < 10) &&
              decide (ascii_digit_to_u8 (rest.getD 2 0) < 10)) = true by
            simp only [Bool.and_eq_true, decide_eq_true_eq]
            exact hd)]
    · rw [if_neg hc,
        if_neg (show ¬ (decide (3 ≤ rest.length) && (rest.getD 1 0 == 46)) = true by
          simp only [Bool.and_eq_true, decide_eq_true_eq, beq_iff_eq]
          exact hc)]

/-- Witness for claim C6 (amended) at concrete inputs: the byte `!` (0x21)
passes the masked digit test, and `HTTP/1.1` parses to version 1.1. -/
theorem claim_C6_amended_witness :
    (ascii_digit_to_u8 33 < 10 ↔ (33 < 64 ∧ 33 % 16 < 10)) ∧
    versionFromBytes (HTTPSLASH ++ strBytes "1.1") =
      .ok ({ major := 1, minor := 1 }, []) := by
  refine ⟨claim_C6_amended.1 33 (by decide), ?_⟩
  rw [claim_C6_amended.2 (strBytes "1.1") (by decide)]
  decide

/-- Walk the validator over a byte list, `none` as soon as any byte errors. -/
def walkAll (v : Validator) : List Nat → Option Validator
  | [] => some v
  | b :: rest =>
    match v.advance b with
    | (v', .ok _) => walkAll v' rest
    | (_, .error _) => none

theorem advance_ok_error_none (v : Validator) (b : Nat) (w : Bool)
    (hv : v.error = none) (h : (v.advance b).2 = .ok w) :
    (v.advance b).1.error = none := by
  simp only [Validator.advance, hv] at h ⊢
  split_ifs at h ⊢ <;> simp_all

theorem walkAll_error_none (l : List Nat) :
    ∀ v v' : Validator, v.error = none → walkAll v l = some v' →
      v'.error = none := by
  induction l with
  | nil => intro v v' hv h; cases h; exact hv
  | cons b rest ih =>
    intro v v' hv h
    simp only [walkAll] at h
    rcases ha : v.advance b with ⟨v1, res⟩
    rw [ha] at h
    cases res with
    | ok w =>
      refine ih v1 v' ?_ h
      have := advance_ok_error_none v b w hv (by rw [ha])
      rwa [ha] at this
    | error e => simp at h

/-- `advance` at root scope on a byte that is outside the map and is a
list comma (with commas enabled) or a CR reports `Terminated`. -/
theorem advance_terminated (s : Validator) (t : Nat)
    (herr : s.error = none) (hq : s.quoted = false)
    (hc : ¬ (0:Int) < s.comment_stack)
    (hmap : s.config.map t = 0)
    (hq2 : ¬ (s.config.quotes = true ∧ t = 34))
    (hc2 : ¬ (s.config.comments = true ∧ t = 40))
    (hterm : (s.config.commas = true ∧ t = 44) ∨ t = 13) :
    (s.advance t).2 = .error .Terminated := by
  simp only [Validator.advance, herr, hq]
  rw [if_neg (by simp), if_neg hc, if_neg (by simp [hmap]),
    if_neg (by simpa using hq2), if_neg (by simpa using hc2),
    if_pos (by simpa using hterm)]

theorem valueLen_of_walk (val : List Nat) :
    ∀ (s s' : Validator), walkAll s val = some s' →
    ∀ t, (s'.advance t).2 = .error .Terminated →
    ∀ (i : Nat) (r : List Nat), i + val.length < 100000 →
      valueLen s i (val ++ t :: r) = .ok (i + val.length) := by
  induction val with
  | nil =>
    intro s s' hw t ht i r hi
    cases hw
    simp only [List.nil_append, valueLen, if_neg (by omega : ¬ 100000 ≤ i)]
    rcases ha : s.advance t with ⟨s1, res⟩
    rw [ha] at ht
    simp only at ht
    rw [ht]
    simp
  | cons b rest ih =>
    intro s s' hw t ht i r hi
    simp only [walkAll] at hw
    rcases ha : s.advance b with ⟨s1, res⟩
    rw [ha] at hw
    cases res with
    | ok w =>
      simp only [List.cons_append, valueLen,
        if_neg (by simp only [List.length_cons] at hi; omega : ¬ 100000 ≤ i), ha]
      have := ih s1 s' hw t ht (i + 1) r
        (by simp only [List.length_cons] at hi; omega)
      rw [List.append_eq, this]
      simp only [List.length_cons]
      congr 1
      omega
    | error e => simp at hw

theorem valueLen_ok_lt (l : List Nat) :
    ∀ (s : Validator) (i n : Nat), valueLen s i l = .ok n →
      n < 100000 ∧ i ≤ n := by
  induction l with
  | nil => intro s i n h; simp [valueLen] at h
  | cons b rest ih =>
    intro s i n h
    simp only [valueLen] at h
    by_cases hi : 100000 ≤ i
    · rw [if_pos hi] at h; simp at h
    · rw [if_neg hi] at h
      rcases ha : s.advance b with ⟨s1, res⟩
      rw [ha] at h
      cases res with
      | ok w =>
        obtain ⟨h1, h2⟩ := ih s1 (i + 1) n h
        exact ⟨h1, by omega⟩
      | error e =>
        cases e <;> simp_all

theorem valueLen_replicate (n : Nat) : ∀ i : Nat, i + n ≤ 100000 →
    valueLen (Validator.new defaultConfig) i (List.replicate n 97 ++ [13]) =
      if i + n < 100000 then .ok (i + n) else .error .ValueTooLong := by
  induction n with
  | zero =>
    intro i h
    simp only [List.replicate, List.nil_append, Nat.add_zero]
    by_cases hi : 100000 ≤ i
    · rw [if_neg (by omega)]
      simp [valueLen, hi]
    · rw [if_pos (by omega)]
      simp only [valueLen, if_neg hi]
      rfl
  | succ n ih =>
    intro i h
    have hi : ¬ 100000 ≤ i := by omega
    rw [List.replicate_succ, List.cons_append]
    simp only [valueLen, if_neg hi]
    have ha : (Validator.new defaultConfig).advance 97 =
        (Validator.new defaultConfig, .ok true) := rfl
    rw [ha]
    show valueLen (Validator.new defaultConfig) (i + 1)
        (List.replicate n 97 ++ [13]) = _
    rw [ih (i + 1) (by omega)]
    have h1 : i + 1 + n = i + (n + 1) := by omega
    rw [h1]


theorem from_bytes_of_len_err (cfg : Config) (bytes : List Nat) (e : ParsingError)
    (h : valueLen (Validator.new cfg) 0 bytes = .error e) :
    Value.from_bytes cfg bytes = .error e := by
  simp only [Value.from_bytes, h]

theorem from_bytes_of_len_ok (cfg : Config) (bytes : List Nat) (n : Nat)
    (h : valueLen (Validator.new cfg) 0 bytes = .ok n) :
    Value.from_bytes cfg bytes =
      .ok ({ value := bytes.take n,
             is_valid_ascii := (bytes.take n).all (fun b => decide (b < 128)) },
           bytes.drop n) := by
  simp only [Value.from_bytes, h]

theorem replicate_take (n : Nat) (l : List Nat) :
    (List.replicate n (97 : Nat) ++ l).take n = List.replicate n 97 := by
  have h := List.take_left (List.replicate n (97 : Nat)) l
  rwa [List.length_replicate] at h

theorem replicate_drop (n : Nat) (l : List Nat) :
    (List.replicate n (97 : Nat) ++ l).drop n = l := by
  have h := List.drop_left (List.replicate n (97 : Nat)) l
  rwa [List.length_replicate] at h

theorem replicate_all_ascii (n : Nat) :
    (List.replicate n (97 : Nat)).all (fun b => decide (b < 128)) = true := by
  induction n with
  | zero => rfl
  | succ n ih => simp only [List.replicate_succ, List.all_cons, ih]; rfl

theorem valueLen_replicate_ok (n : Nat) (h : n < 100000) :
    valueLen (Validator.new defaultConfig) 0 (List.replicate n 97 ++ [13]) = .ok n := by
  have h0 := valueLen_replicate n 0 (by omega)
  rw [if_pos (by omega), Nat.zero_add] at h0
  exact h0

theorem value_replicate_ok (n : Nat) (h : n < 100000) :
    Value.from_bytes defaultConfig (List.replicate n 97 ++ [13]) =
      .ok ({ value := List.replicate n 97, is_valid_ascii := true }, [13]) := by
  rw [from_bytes_of_len_ok _ _ _ (valueLen_replicate_ok n h)]
  rw [replicate_take, replicate_drop, replicate_all_ascii]

theorem valueLen_replicate_full :
    valueLen (Validator.new defaultConfig) 0 (List.replicate 100000 97 ++ [13]) =
      .error .ValueTooLong :=
  (valueLen_replicate 100000 0 (by omega)).trans (if_neg (by omega))

/-- Claim C3 counterexample: the claim says a value of exactly 100,000
bytes followed by its terminator parses. In the code the `i >= MAX_LEN`
test fires before the terminator at index 100,000 is examined, so a value
of exactly 100,000 bytes followed by CR fails with `ValueTooLong`. -/
theorem claim_C3_counterexample :
    Value.from_bytes defaultConfig (List.replicate 100000 97 ++ [13]) =
      .error .ValueTooLong :=
  from_bytes_of_len_err _ _ _ valueLen_replicate_full

theorem value_ceiling_ok_99999 :
    Value.from_bytes defaultConfig (List.replicate 99999 97 ++ [13]) =
      .ok ({ value := List.replicate 99999 97, is_valid_ascii := true }, [13]) :=
  value_replicate_ok 99999 (by omega)

theorem value_ceiling_err_100000 :
    Value.from_bytes defaultConfig (List.replicate 100000 97 ++ [13]) =
      .error .ValueTooLong :=
  from_bytes_of_len_err _ _ _ valueLen_replicate_full

theorem value_ok_length_lt (cfg : Config) (bytes : List Nat) (v : Value)
    (r : List Nat) (h : Value.from_bytes cfg bytes = .ok (v, r)) :
    v.value.length < 100000 := by
  simp only [Value.from_bytes] at h
  rcases hv : valueLen (Validator.new cfg) 0 bytes with e | n <;> rw [hv] at h
  · simp at h
  · obtain ⟨h1, _⟩ := valueLen_ok_lt bytes _ 0 n hv
    simp only [Except.ok.injEq, Prod.mk.injEq] at h
    obtain ⟨hval, _⟩ := h
    rw [← hval]
    simp only [List.length_take]
    omega

/-- Claim C3 (amended): the longest value that parses is 99,999 bytes:
a 99,999-byte value followed by its CR terminator parses to exactly those
bytes, a 100,000-byte value followed by its terminator fails with
`ValueTooLong`, and every successfully parsed value is shorter than
100,000 bytes (the ceiling error is the only outcome at or beyond it). -/
theorem claim_C3_value_ceiling :
    Value.from_bytes defaultConfig (List.replicate 99999 97 ++ [13]) =
      .ok ({ value := List.replicate 99999 97, is_valid_ascii := true }, [13]) ∧
    Value.from_bytes defaultConfig (List.replicate 100000 97 ++ [13]) =
      .error .ValueTooLong ∧
    (∀ (cfg : Config) (bytes : List Nat) (v : Value) (r : List Nat),
      Value.from_bytes cfg bytes = .ok (v, r) → v.value.length < 100000) :=
  ⟨value_ceiling_ok_99999, value_ceiling_err_100000, value_ok_length_lt⟩

/-- Witness for claim C3 (amended) at a concrete input: the one-byte value
`a` terminated by CR parses, and its length is below the ceiling. -/
theorem claim_C3_value_ceiling_witness :
    Value.from_bytes defaultConfig [97, 13] =
      .ok ({ value := [97], is_valid_ascii := true }, [13]) ∧
    ({ value := [97], is_valid_ascii := true } : Value).value.length < 100000 :=
  ⟨by decide, claim_C3_value_ceiling.2.2 defaultConfig [97, 13]
    { value := [97], is_valid_ascii := true } [13] (by decide)⟩

/-- The walking state of unquoting, as the amended description of claim C4
gives it: inside a quoted string (`quoted`), right after an escape
backslash (`escape`), or inside `depth` nested comments. -/
structure UnquoteState where
  quoted : Bool
  escape : Bool
  depth : Nat
deriving DecidableEq, Repr

/-- One byte of the amended unquote description: `none` when the stored
value is not grammatically valid at this byte (including a `,`/CR
terminator at root, which unquoting treats as invalid data), otherwise the
next state and whether the byte is kept. Kept: escaped bytes, visible
quoted text, comment text including opaque bytes, comment parentheses, and
visible root bytes. Dropped: quote delimiters, escape backslashes, and
opaque bytes inside quoted strings. -/
def unquoteClassify (cfg : Config) (s : UnquoteState) (b : Nat) :
    Option (UnquoteState × Bool) :=
  if s.quoted then
    if s.escape then some ({ s with escape := false }, true)
    else if b = 92 then some ({ s with escape := true }, false)
    else if b = 34 then some ({ s with quoted := false }, false)
    else if QUOTED_TEXT_MAP b = 0 then none
    else if is_opaque_byte b then some (s, false)
    else some (s, true)
  else if 0 < s.depth then
    if CTEXT_MAP b ≠ 0 then some (s, true)
    else if cfg.quotes && b = 34 then some ({ s with quoted := true }, false)
    else if b = 40 then some ({ s with depth := s.depth + 1 }, true)
    else if b = 41 then some ({ s with depth := s.depth - 1 }, true)
    else none
  else
    if cfg.map b ≠ 0 then some (s, true)
    else if cfg.quotes && b = 34 then some ({ s with quoted := true }, false)
    else if cfg.comments && b = 40 then some ({ s with depth := s.depth + 1 }, true)
    else none

/-- The amended unquote description, folded over the value bytes. -/
def unquoteSpecAux (cfg : Config) (s : UnquoteState) :
    List Nat → Except InvalidData (List Nat)
  | [] => .ok []
  | b :: rest =>
    match unquoteClassify cfg s b with
    | none => .error ⟨⟩
    | some (s', true) =>
      match unquoteSpecAux cfg s' rest with
      | .ok l => .ok (b :: l)
      | .error e => .error e
    | some (s', false) => unquoteSpecAux cfg s' rest

def unquoteSpec (cfg : Config) (bytes : List Nat) : Except InvalidData (List Nat) :=
  unquoteSpecAux cfg { quoted := false, escape := false, depth := 0 } bytes


theorem ctext_nonzero_of_opaque_byte (b : Nat) (hb : b < 256) (ho : is_opaque_byte b = true) :
    CTEXT_MAP b ≠ 0 := by
  simp only [is_opaque_byte, decide_eq_true_eq] at ho
  have hc : CTEXT_MAP b = b := by
    unfold CTEXT_MAP
    rw [if_pos]
    simp only [Bool.or_eq_true, Bool.and_eq_true, decide_eq_true_eq]
    omega
  omega

theorem classify_none_advance (cfg : Config) (v : Validator) (s : UnquoteState)
    (b : Nat) (hb : b < 256)
    (hq : v.quoted = s.quoted) (he : v.backslash = s.escape)
    (hd : v.comment_stack = (s.depth : Int)) (herr : v.error = none)
    (hcfg : v.config = cfg) (h : unquoteClassify cfg s b = none) :
    ∃ e, (v.advance b).2 = .error e := by
  simp only [unquoteClassify] at h
  split_ifs at h with h1 h2 h3 h4 h5 h6 h7 h8 h9 h10 h11 h12 h13 <;>
    solve
    | exact Option.noConfusion h
    | (refine ⟨.Quote, ?_⟩
       simp_all [Validator.advance]
       all_goals (split_ifs <;> simp_all))
    | (refine ⟨.Comment, ?_⟩
       have hctext : CTEXT_MAP b = 0 := by
         first
         | assumption
         | exact not_not.mp (by assumption)
       have hop : is_opaque_byte b = false := by
         cases hio : is_opaque_byte b
         · rfl
         · exact absurd hctext (ctext_nonzero_of_opaque_byte b hb hio)
       simp_all [Validator.advance, Nat.cast_pos]
       all_goals (split_ifs <;> simp_all))
    | (by_cases hterm : (cfg.commas = true ∧ b = 44) ∨ b = 13
       · refine ⟨.Terminated, ?_⟩
         simp_all [Validator.advance, Nat.cast_pos]
         all_goals (split_ifs <;> simp_all)
       · refine ⟨.Token, ?_⟩
         simp_all [Validator.advance, Nat.cast_pos]
         all_goals (split_ifs <;> simp_all))

theorem classify_some_advance (cfg : Config) (v : Validator) (s : UnquoteState)
    (b : Nat) (hb : b < 256)
    (hq : v.quoted = s.quoted) (he : v.backslash = s.escape)
    (hd : v.comment_stack = (s.depth : Int)) (herr : v.error = none)
    (hcfg : v.config = cfg) (s' : UnquoteState) (keep : Bool)
    (h : unquoteClassify cfg s b = some (s', keep)) :
    (v.advance b).2 = .ok keep ∧
    (v.advance b).1.quoted = s'.quoted ∧
    (v.advance b).1.backslash = s'.escape ∧
    (v.advance b).1.comment_stack = (s'.depth : Int) ∧
    (v.advance b).1.error = none ∧ (v.advance b).1.config = cfg := by
  simp only [unquoteClassify] at h
  split_ifs at h with h1 h2 h3 h4 h5 h6 h7 h8 h9 h10 h11 h12 h13 <;>
    solve
    | exact Option.noConfusion h
    | (simp only [Option.some.injEq, Prod.mk.injEq] at h
       obtain ⟨hA, hK⟩ := h
       subst hA
       subst hK
       simp_all [Validator.advance, Nat.cast_pos])

theorem unquoteAux_spec (bytes : List Nat) :
    ∀ (cfg : Config) (v : Validator) (s : UnquoteState),
    (∀ b ∈ bytes, b < 256) →
    v.quoted = s.quoted → v.backslash = s.escape →
    v.comment_stack = (s.depth : Int) → v.error = none → v.config = cfg →
    unquoteAux v bytes = unquoteSpecAux cfg s bytes := by
  induction bytes with
  | nil => intro cfg v s _ _ _ _ _ _; rfl
  | cons b rest ih =>
    intro cfg v s hb hq he hd herr hcfg
    have hb0 : b < 256 := hb b (List.mem_cons_self _ _)
    have hbrest : ∀ x ∈ rest, x < 256 := fun x hx => hb x (List.mem_cons_of_mem _ hx)
    simp only [unquoteAux, unquoteSpecAux]
    rcases hcls : unquoteClassify cfg s b with _ | ⟨s', keep⟩
    · obtain ⟨e, he2⟩ := classify_none_advance cfg v s b hb0 hq he hd herr hcfg hcls
      rcases ha : v.advance b with ⟨v1, res⟩
      rw [ha] at he2
      simp only at he2
      subst he2
      rfl
    · obtain ⟨hok, hq', he', hd', herr', hcfg'⟩ :=
        classify_some_advance cfg v s b hb0 hq he hd herr hcfg s' keep hcls
      rcases ha : v.advance b with ⟨v1, res⟩
      rw [ha] at hok hq' he' hd' herr' hcfg'
      simp only at hok hq' he' hd' herr' hcfg'
      subst hok
      cases keep
      · exact ih cfg v1 s' hbrest hq' he' hd' herr' hcfg'
      · have ihh := ih cfg v1 s' hbrest hq' he' hd' herr' hcfg'
        show (match unquoteAux v1 rest with
              | .ok l => Except.ok (b :: l)
              | .error e => Except.error e) = _
        rw [ihh]

/-- Claim C4 (amended): for every configuration and every stored `Value`
with bytes in the `u8` range, `Value::unquote` fails with `InvalidData`
exactly when the stored value is not grammatically valid (a list comma or
CR at root scope included), and otherwise returns, in original order,
exactly the escaped bytes, the visible bytes — comment parentheses
included — and the opaque bytes inside comments, dropping the quote
delimiters, the escape backslashes, and the opaque bytes inside quoted
strings. (`unquoteSpec` is that byte classification; the claim's original
wording instead said comment parentheses are dropped and every opaque
byte is kept.) -/
theorem claim_C4_unquote (cfg : Config) (v : Value)
    (hb : ∀ b ∈ v.value, b < 256) :
    v.unquote cfg = unquoteSpec cfg v.value :=
  unquoteAux_spec v.value cfg (Validator.new cfg)
    { quoted := false, escape := false, depth := 0 } hb rfl rfl rfl rfl rfl

/-- Witness for claim C4 (amended) at a concrete input: a value with a
comment, a quoted string and an escape; both sides evaluate to the same
unquoted bytes, with the comment parentheses kept. -/
theorem claim_C4_unquote_witness :
    Value.unquote { value := strBytes "(a) \"b\\c\"", is_valid_ascii := true }
        defaultConfig =
      unquoteSpec defaultConfig (strBytes "(a) \"b\\c\"") ∧
    unquoteSpec defaultConfig (strBytes "(a) \"b\\c\"") =
      .ok (strBytes "(a) bc") :=
  ⟨claim_C4_unquote defaultConfig
    { value := strBytes "(a) \"b\\c\"", is_valid_ascii := true } (by decide),
   by decide⟩

theorem advance_config (v : Validator) (b : Nat) :
    ((v.advance b).1).config = v.config := by
  rcases hv : v.error with _ | e
  · simp only [Validator.advance, hv]
    split_ifs <;> rfl
  · simp only [Validator.advance, hv]

theorem walkAll_config (l : List Nat) :
    ∀ v v' : Validator, walkAll v l = some v' → v'.config = v.config := by
  induction l with
  | nil => intro v v' h; cases h; rfl
  | cons b rest ih =>
    intro v v' h
    simp only [walkAll] at h
    rcases ha : v.advance b with ⟨v1, res⟩
    rw [ha] at h
    cases res with
    | ok w =>
      have h1 := ih v1 v' h
      have h2 := advance_config v b
      rw [ha] at h2
      rw [h1, h2]
    | error e => simp at h

/-- A parsed value (`Value::from_bytes` result): the raw bytes with the
ASCII flag the parser computes. -/
def mkParsedValue (v : List Nat) : Value :=
  { value := v, is_valid_ascii := v.all (fun b => decide (b < 128)) }

/-- A value is well-formed for round-tripping under `cfg`: the validator
walks it without error back to root scope, it is below the length ceiling,
its bytes are in the `u8` range, and it does not start with a space
(leading spaces are consumed by the values parser and would be lost). -/
def wfValueB (cfg : Config) (v : List Nat) : Bool :=
  (match walkAll (Validator.new cfg) v with
   | some s => s.in_root_scope
   | none => false) &&
  decide (v.length < 100000) &&
  v.all (fun b => decide (b < 256)) &&
  !(v.head? == some 32)

theorem wfValueB_root (cfg : Config) (v : List Nat) (h : wfValueB cfg v = true) :
    ∃ s', walkAll (Validator.new cfg) v = some s' ∧ s'.in_root_scope = true := by
  simp only [wfValueB, Bool.and_eq_true] at h
  rcases hw : walkAll (Validator.new cfg) v with _ | s'
  · rw [hw] at h; simp at h
  · exact ⟨s', rfl, by rw [hw] at h; exact h.1.1.1⟩

theorem wfValueB_len (cfg : Config) (v : List Nat) (h : wfValueB cfg v = true) :
    v.length < 100000 := by
  simp only [wfValueB, Bool.and_eq_true, decide_eq_true_eq] at h
  exact h.1.1.2

theorem wfValueB_head (cfg : Config) (v : List Nat) (h : wfValueB cfg v = true) :
    v.head? ≠ some 32 := by
  simp only [wfValueB, Bool.and_eq_true] at h
  have := h.2
  simp only [Bool.not_eq_true'] at this
  intro hx
  rw [hx] at this
  simp at this

theorem dropSpaces_no_space (l : List Nat) (h : l.head? ≠ some 32) :
    dropSpaces l = l := by
  cases l with
  | nil => rfl
  | cons a rest =>
    simp only [List.head?] at h
    have ha : (a == 32) = false := by
      cases hb : a == 32
      · rfl
      · have : a = 32 := by simpa using hb
        subst this
        exact absurd rfl h
    simp [dropSpaces, List.dropWhile, ha]

/-- `Value::from_bytes` on a well-formed value followed by a terminating
byte: the value is split off exactly, the terminator is left in the
stream. -/
theorem from_bytes_wf (cfg : Config) (v : List Nat) (t : Nat) (r : List Nat)
    (hwf : wfValueB cfg v = true)
    (hmap : cfg.map t = 0) (ht34 : t ≠ 34) (ht40 : t ≠ 40)
    (hterm : (cfg.commas = true ∧ t = 44) ∨ t = 13) :
    Value.from_bytes cfg (v ++ t :: r) = .ok (mkParsedValue v, t :: r) := by
  obtain ⟨s', hw, hroot⟩ := wfValueB_root cfg v hwf
  have herr : s'.error = none := walkAll_error_none v _ s' rfl hw
  have hcfg : s'.config = cfg := walkAll_config v _ s' hw
  have hq : s'.quoted = false := by
    simp only [Validator.in_root_scope, Validator.commented, Bool.not_eq_true',
      Bool.or_eq_false_iff] at hroot
    exact hroot.1
  have hcs : ¬ (0:Int) < s'.comment_stack := by
    simp only [Validator.in_root_scope, Validator.commented, Bool.not_eq_true',
      Bool.or_eq_false_iff] at hroot
    have := hroot.2
    simp only [decide_eq_false_iff_not] at this
    exact this
  have ht : (s'.advance t).2 = .error .Terminated := by
    refine advance_terminated s' t herr hq hcs (by rw [hcfg]; exact hmap) ?_ ?_ ?_
    · rw [hcfg]; rintro ⟨_, h⟩; exact ht34 h
    · rw [hcfg]; rintro ⟨_, h⟩; exact ht40 h
    · rw [hcfg]; exact hterm
  have hlen := wfValueB_len cfg v hwf
  have hv := valueLen_of_walk v _ s' hw t ht 0 r (by omega)
  rw [Nat.zero_add] at hv
  simp only [Value.from_bytes, hv, List.take_left, List.drop_left]
  rfl

/-- `", "`-joined serialization of a list of value byte-strings (the wire
form `Values::write_to_buffer` produces). -/
def sepJoin : List (List Nat) → List Nat
  | [] => []
  | [v] => v
  | v :: w :: rest => v ++ 44 :: 32 :: sepJoin (w :: rest)

theorem extendF_leading_space (cfg : Config) (fuel : Nat) (h : fuel ≠ 0)
    (acc : List Value) (X : List Nat) :
    extendFromBytes cfg fuel acc (32 :: X) = extendFromBytes cfg fuel acc X := by
  cases fuel with
  | zero => exact absurd rfl h
  | succ f => rfl

theorem sepJoin_head_ne_space (cfg : Config) (v : List Nat)
    (vstail : List (List Nat)) (c : Nat) (r : List Nat)
    (hwf : wfValueB cfg v = true) (hc : c ≠ 32) :
    (sepJoin (v :: vstail) ++ c :: r).head? ≠ some 32 := by
  have hv := wfValueB_head cfg v hwf
  cases v with
  | nil =>
    cases vstail with
    | nil => simpa [sepJoin] using hc
    | cons w rest => simp [sepJoin]
  | cons a l =>
    cases vstail with
    | nil =>
      simp only [sepJoin, List.cons_append, List.head?]
      simpa using hv
    | cons w rest =>
      simp only [sepJoin, List.cons_append, List.head?]
      simpa using hv

theorem extendF_sepJoin (cfg : Config) (hmap13 : cfg.map 13 = 0) :
    ∀ (vs : List (List Nat)) (v : List Nat),
    (∀ x ∈ v :: vs, wfValueB cfg x = true) →
    (vs ≠ [] → cfg.commas = true ∧ cfg.map 44 = 0) →
    ∀ (acc : List Value) (r : List Nat) (fuel : Nat),
    (sepJoin (v :: vs) ++ 13 :: r).length < fuel →
    extendFromBytes cfg fuel acc (sepJoin (v :: vs) ++ 13 :: r) =
      .ok (acc ++ (v :: vs).map mkParsedValue, 13 :: r) := by
  intro vs
  induction vs with
  | nil =>
    intro v hwf _ acc r fuel hfuel
    cases fuel with
    | zero => simp at hfuel
    | succ f =>
      have hwv := hwf v (List.mem_cons_self _ _)
      simp only [sepJoin] at hfuel ⊢
      have hd1 : dropSpaces (v ++ 13 :: r) = v ++ 13 :: r := by
        apply dropSpaces_no_space
        have := sepJoin_head_ne_space cfg v [] 13 r hwv (by omega)
        simpa [sepJoin] using this
      have hfb := from_bytes_wf cfg v 13 r hwv hmap13 (by omega) (by omega)
        (Or.inr rfl)
      simp only [extendFromBytes, hd1, hfb]
      simp
  | cons w rest ih =>
    intro v hwf hcomma acc r fuel hfuel
    cases fuel with
    | zero => simp at hfuel
    | succ f =>
      have hwv := hwf v (List.mem_cons_self _ _)
      obtain ⟨hcommas, hmap44⟩ := hcomma (by simp)
      have hjoin : sepJoin (v :: w :: rest) ++ 13 :: r =
          v ++ 44 :: 32 :: (sepJoin (w :: rest) ++ 13 :: r) := by
        simp [sepJoin]
      rw [hjoin] at hfuel ⊢
      have hd1 : dropSpaces (v ++ 44 :: 32 :: (sepJoin (w :: rest) ++ 13 :: r)) =
          v ++ 44 :: 32 :: (sepJoin (w :: rest) ++ 13 :: r) := by
        apply dropSpaces_no_space
        have := sepJoin_head_ne_space cfg v (w :: rest) 13 r hwv (by omega)
        simp only [sepJoin] at this
        simpa using this
      have hfb := from_bytes_wf cfg v 44 (32 :: (sepJoin (w :: rest) ++ 13 :: r))
        hwv hmap44 (by omega) (by omega) (Or.inl ⟨hcommas, rfl⟩)
      simp only [extendFromBytes, hd1, hfb]
      rw [extendF_leading_space cfg f (by
        simp only [List.length_append, List.length_cons] at hfuel
        omega)]
      rw [ih w (fun x hx => hwf x (List.mem_cons_of_mem _ hx))
        (fun _ => ⟨hcommas, hmap44⟩) (acc ++ [mkParsedValue v]) r f (by
          simp only [List.length_append, List.length_cons] at hfuel ⊢
          omega)]
      simp

theorem valuesF_sepJoin (cfg : Config) (hmap13 : cfg.map 13 = 0)
    (v : List Nat) (vs : List (List Nat))
    (hwf : ∀ x ∈ v :: vs, wfValueB cfg x = true)
    (hcomma : vs ≠ [] → cfg.commas = true ∧ cfg.map 44 = 0)
    (r : List Nat) :
    ValuesM.from_bytes cfg (sepJoin (v :: vs) ++ 13 :: r) =
      .ok ({ first := mkParsedValue v, extra := vs.map mkParsedValue }, 13 :: r) := by
  have hwv := hwf v (List.mem_cons_self _ _)
  cases vs with
  | nil =>
    have hd1 : dropSpaces (sepJoin [v] ++ 13 :: r) = v ++ 13 :: r := by
      rw [show sepJoin [v] = v from rfl]
      apply dropSpaces_no_space
      have := sepJoin_head_ne_space cfg v [] 13 r hwv (by omega)
      simpa [sepJoin] using this
    have hfb := from_bytes_wf cfg v 13 r hwv hmap13 (by omega) (by omega)
      (Or.inr rfl)
    simp only [ValuesM.from_bytes, hd1, hfb]
    simp
  | cons w rest =>
    obtain ⟨hcommas, hmap44⟩ := hcomma (by simp)
    have hjoin : sepJoin (v :: w :: rest) ++ 13 :: r =
        v ++ 44 :: 32 :: (sepJoin (w :: rest) ++ 13 :: r) := by
      simp [sepJoin]
    rw [hjoin]
    have hd1 : dropSpaces (v ++ 44 :: 32 :: (sepJoin (w :: rest) ++ 13 :: r)) =
        v ++ 44 :: 32 :: (sepJoin (w :: rest) ++ 13 :: r) := by
      apply dropSpaces_no_space
      have := sepJoin_head_ne_space cfg v (w :: rest) 13 r hwv (by omega)
      simp only [sepJoin] at this
      simpa using this
    have hfb := from_bytes_wf cfg v 44 (32 :: (sepJoin (w :: rest) ++ 13 :: r))
      hwv hmap44 (by omega) (by omega) (Or.inl ⟨hcommas, rfl⟩)
    simp only [ValuesM.from_bytes, hd1, hfb]
    rw [extendF_leading_space cfg _ (by simp)]
    rw [extendF_sepJoin cfg hmap13 rest w
      (fun x hx => hwf x (List.mem_cons_of_mem _ hx))
      (fun _ => ⟨hcommas, hmap44⟩) [] r _ (by
        simp only [List.length_cons]
        omega)]
    simp

theorem takeWhile_append_all {p : Nat → Bool} (name : List Nat) (c : Nat)
    (rest : List Nat) (h1 : ∀ b ∈ name, p b = true) (h2 : p c = false) :
    (name ++ c :: rest).takeWhile p = name := by
  induction name with
  | nil => simp [List.takeWhile, h2]
  | cons a l ih =>
    have ha := h1 a (List.mem_cons_self _ _)
    simp only [List.cons_append, List.takeWhile, ha]
    rw [List.append_eq, ih (fun b hb => h1 b (List.mem_cons_of_mem _ hb))]

/-- `field_name_from_bytes` on a well-formed name followed by the colon. -/
theorem fieldName_split (name : List Nat) (rest : List Nat)
    (h1 : ∀ b ∈ name, TCHAR_MAP b ≠ 0) (h2 : name.length ≤ 1024) :
    fieldNameFromBytes (name ++ 58 :: rest) = (name, 58 :: rest) := by
  have ht : (name ++ 58 :: rest).takeWhile (fun c => TCHAR_MAP c ≠ 0) = name := by
    apply takeWhile_append_all
    · intro b hb
      simpa using h1 b hb
    · simp only [decide_eq_false_iff_not]
      decide
  simp only [fieldNameFromBytes, ht]
  rw [min_eq_left h2, List.take_left, List.drop_left]

theorem startsWithL_crlf_false (l : List Nat) (c : Nat) (rest : List Nat)
    (h : l = c :: rest) (hc : c ≠ 13) : startsWithL CRLFb l = false := by
  subst h
  simp only [CRLFb, startsWithL, Bool.and_eq_false_iff]
  left
  simp only [beq_eq_false_iff_ne, ne_eq]
  intro hx
  exact hc hx.symm

theorem config_for_name_map13 (name : List Nat) :
    (config_for_name name).map 13 = 0 := by
  by_cases h : name ∈ DATE_FIELDS <;> simp [config_for_name, h] <;> decide

theorem config_for_name_commas (name : List Nat) :
    (config_for_name name).commas = true := rfl

/-- One serialized header line: `name: ` then the `", "`-joined values then
CRLF. -/
def serializeLine (e : List Nat × List (List Nat)) : List Nat :=
  e.1 ++ 58 :: 32 :: (sepJoin e.2 ++ CRLFb)

/-- A serialized header block: the lines, then the final CRLF. -/
def serializeLines (lines : List (List Nat × List (List Nat))) : List Nat :=
  (lines.map serializeLine).foldr (· ++ ·) [] ++ CRLFb

/-- A header line (name, value byte-strings) is well-formed for
round-tripping: tchar name of at most 1024 bytes starting alphanumeric, at
least one value, every value well-formed under the name's configuration,
and, when the line carries several values, a configuration map that does
not claim the comma (under the date map a comma is an ordinary value byte,
so a multi-value date line would not split back). -/
def wfLineB (e : List Nat × List (List Nat)) : Bool :=
  decide (e.1 ≠ []) && decide (e.1.length ≤ 1024) &&
  decide (∀ b ∈ e.1, TCHAR_MAP b ≠ 0) &&
  (e.1.head?.map isAsciiAlphanumericB).getD false &&
  decide (e.2 ≠ []) &&
  decide (∀ v ∈ e.2, wfValueB (config_for_name e.1) v = true) &&
  decide (e.2.length ≤ 1 ∨ (config_for_name e.1).map 44 = 0)

/-- The effect of one parsed header line on the accumulated `Fields`:
append the values to the existing entry when the name is already present,
otherwise append a new entry at the end. -/
def addLineImpl (acc : FieldsM) (e : List Nat × List (List Nat)) : FieldsM :=
  match fieldsGet acc e.1 with
  | some vs =>
    fieldsUpdateFirst acc e.1 { vs with extra := vs.extra ++ e.2.map mkParsedValue }
  | none =>
    match e.2 with
    | [] => acc
    | v :: rest =>
      acc ++ [(e.1, { first := mkParsedValue v, extra := rest.map mkParsedValue })]

theorem wfLineB_unpack (e : List Nat × List (List Nat)) (h : wfLineB e = true) :
    e.1 ≠ [] ∧ e.1.length ≤ 1024 ∧ (∀ b ∈ e.1, TCHAR_MAP b ≠ 0) ∧
    (e.1.head?.map isAsciiAlphanumericB).getD false = true ∧
    e.2 ≠ [] ∧ (∀ v ∈ e.2, wfValueB (config_for_name e.1) v = true) ∧
    (e.2.length ≤ 1 ∨ (config_for_name e.1).map 44 = 0) := by
  simp only [wfLineB, Bool.and_eq_true, decide_eq_true_eq] at h
  obtain ⟨⟨⟨⟨⟨⟨h1, h2⟩, h3⟩, h4⟩, h5⟩, h6⟩, h7⟩ := h
  exact ⟨h1, h2, h3, h4, h5, h6, h7⟩

theorem alnum_ne_13 (c : Nat) (h : isAsciiAlphanumericB c = true) : c ≠ 13 := by
  intro hc
  subst hc
  simp [isAsciiAlphanumericB] at h

theorem serializeLines_cons_shape (name : List Nat) (vs : List (List Nat))
    (ls : List (List Nat × List (List Nat))) :
    serializeLines ((name, vs) :: ls) =
      name ++ 58 :: 32 :: (sepJoin vs ++ 13 :: 10 :: serializeLines ls) := by
  simp [serializeLines, serializeLine, CRLFb, List.append_assoc]

theorem fieldsLoop_serializeLines (lines : List (List Nat × List (List Nat))) :
    ∀ (acc : FieldsM) (fuel : Nat),
    (∀ e ∈ lines, wfLineB e = true) →
    (serializeLines lines).length < fuel →
    fieldsLoop fuel acc (serializeLines lines) =
      .ok (lines.foldl addLineImpl acc, []) := by
  induction lines with
  | nil =>
    intro acc fuel _ hfuel
    have hs : serializeLines ([] : List (List Nat × List (List Nat))) = [13, 10] := by
      simp [serializeLines, CRLFb]
    rw [hs] at hfuel ⊢
    cases fuel with
    | zero => simp at hfuel
    | succ f =>
      simp [fieldsLoop, startsWithL, isAsciiAlphanumericB, CRLFb]
  | cons e ls ih =>
    obtain ⟨name, vs⟩ := e
    intro acc fuel hwf hfuel
    obtain ⟨hn1, hn2, hn3, hn4, hv1, hv2, hv3⟩ :=
      wfLineB_unpack (name, vs) (hwf _ (List.mem_cons_self _ _))
    obtain ⟨n0, ntail, rfl⟩ : ∃ n0 ntail, name = n0 :: ntail := by
      cases name with
      | nil => exact absurd rfl hn1
      | cons a l => exact ⟨a, l, rfl⟩
    obtain ⟨v, vstail, rfl⟩ : ∃ w t, vs = w :: t := by
      cases vs with
      | nil => exact absurd rfl hv1
      | cons a l => exact ⟨a, l, rfl⟩
    simp only at hn1 hn2 hn3 hn4 hv1 hv2 hv3
    rw [serializeLines_cons_shape] at hfuel ⊢
    cases fuel with
    | zero => simp at hfuel
    | succ f =>
      have halnum : isAsciiAlphanumericB n0 = true := by simpa using hn4
      have hne13 : n0 ≠ 13 := alnum_ne_13 n0 halnum
      have hsw : startsWithL CRLFb ((n0 :: ntail) ++
          58 :: 32 :: (sepJoin (v :: vstail) ++ 13 :: 10 :: serializeLines ls)) =
          false :=
        startsWithL_crlf_false _ n0
          (ntail ++ 58 :: 32 :: (sepJoin (v :: vstail) ++ 13 :: 10 :: serializeLines ls))
          rfl hne13
      have hfn := fieldName_split (n0 :: ntail)
        (32 :: (sepJoin (v :: vstail) ++ 13 :: 10 :: serializeLines ls)) hn3 hn2
      have hfn1 := congrArg Prod.fst hfn
      have hfn2 := congrArg Prod.snd hfn
      simp only [List.cons_append] at hsw hfn1 hfn2 hfuel ⊢
      simp only [fieldsLoop, hsw, hfn1, hfn2, Bool.not_false, List.head?,
        Option.map_some', Option.getD_some, halnum, Bool.true_and, Bool.and_self,
        List.tail_cons, if_true]
      rw [if_neg (by simp : ¬ (n0 :: ntail) = [])]
      have hmap13 := config_for_name_map13 (n0 :: ntail)
      have hcommas := config_for_name_commas (n0 :: ntail)
      have hcomma2 : vstail ≠ [] →
          (config_for_name (n0 :: ntail)).commas = true ∧
          (config_for_name (n0 :: ntail)).map 44 = 0 := by
        intro hne
        refine ⟨hcommas, ?_⟩
        rcases hv3 with h | h
        · exfalso
          cases vstail with
          | nil => exact hne rfl
          | cons a l => simp at h
        · exact h
      have hlen_tail : (serializeLines ls).length < f := by
        simp only [List.length_append, List.length_cons] at hfuel
        omega
      rcases hget : fieldsGet acc (n0 :: ntail) with _ | vsm
      · have hvals := valuesF_sepJoin (config_for_name (n0 :: ntail)) hmap13 v vstail
          (by intro x hx; exact hv2 x hx) hcomma2 (10 :: serializeLines ls)
        simp only [hget, hvals]
        rw [ih _ f (fun x hx => hwf x (List.mem_cons_of_mem _ hx)) hlen_tail]
        simp only [List.foldl_cons]
        have haddl : addLineImpl acc (n0 :: ntail, v :: vstail) =
            acc ++ [(n0 :: ntail,
              { first := mkParsedValue v, extra := vstail.map mkParsedValue })] := by
          simp only [addLineImpl, hget]
        rw [haddl]
      · have hext := extendF_sepJoin (config_for_name (n0 :: ntail)) hmap13 vstail v
          (by intro x hx; exact hv2 x hx) hcomma2 vsm.extra (10 :: serializeLines ls)
          ((sepJoin (v :: vstail) ++ 13 :: 10 :: serializeLines ls).length + 1)
          (by omega)
        simp only [hget, hext]
        rw [ih _ f (fun x hx => hwf x (List.mem_cons_of_mem _ hx)) hlen_tail]
        simp only [List.foldl_cons]
        have haddl : addLineImpl acc (n0 :: ntail, v :: vstail) =
            fieldsUpdateFirst acc (n0 :: ntail)
              { vsm with extra := vsm.extra ++ (v :: vstail).map mkParsedValue } := by
          simp only [addLineImpl, hget]
        rw [haddl]

/-- Spec-side grouping from claim C9's words: add one header line to an
entry list by appending its values to the first entry carrying the same
name, or appending a new entry at the end when the name is new. -/
def addLineG : List (List Nat × List (List Nat)) → List Nat × List (List Nat) →
    List (List Nat × List (List Nat))
  | [], e => [e]
  | p :: rest, e =>
    if p.1 = e.1 then (p.1, p.2 ++ e.2) :: rest else p :: addLineG rest e

/-- Spec-side description from claim C9's words: group the header lines by
name, values appended in encounter order, entries ordered by each name's
first appearance. -/
def groupLines (lines : List (List Nat × List (List Nat))) :
    List (List Nat × List (List Nat)) :=
  lines.foldl addLineG []

/-- The byte-level view of a parsed `Fields`: each entry's name with the
byte strings of all its values in order. -/
def fieldsEntriesBytes (f : FieldsM) : List (List Nat × List (List Nat)) :=
  f.map (fun p => (p.1, (p.2.first :: p.2.extra).map Value.value))

theorem map_value_mkParsed (l : List (List Nat)) :
    (l.map mkParsedValue).map Value.value = l := by
  induction l with
  | nil => rfl
  | cons a t ih =>
    simp only [List.map_cons, ih]
    rfl

theorem map_value_comp (l : List (List Nat)) :
    l.map (Value.value ∘ mkParsedValue) = l := by
  induction l with
  | nil => rfl
  | cons a t ih =>
    simp only [List.map_cons, ih]
    rfl

theorem entries_addLine (name : List Nat) (vs : List (List Nat)) (hvs : vs ≠ []) :
    ∀ acc : FieldsM,
    fieldsEntriesBytes (addLineImpl acc (name, vs)) =
      addLineG (fieldsEntriesBytes acc) (name, vs) := by
  intro acc
  induction acc with
  | nil =>
    cases vs with
    | nil => exact absurd rfl hvs
    | cons v rest =>
      simp only [addLineImpl, fieldsGet, List.find?, fieldsEntriesBytes,
        addLineG, List.map, List.nil_append]
      simp [map_value_comp, mkParsedValue]
  | cons p ptail ih =>
    by_cases hp : p.1 = name
    · have hget : fieldsGet (p :: ptail) name = some p.2 := by
        simp [fieldsGet, List.find?, hp]
      have hupd : fieldsUpdateFirst (p :: ptail) name
          { p.2 with extra := p.2.extra ++ vs.map mkParsedValue } =
          (p.1, { p.2 with extra := p.2.extra ++ vs.map mkParsedValue }) :: ptail := by
        simp [fieldsUpdateFirst, hp]
      simp only [addLineImpl, hget, hupd]
      simp only [fieldsEntriesBytes, List.map_cons, addLineG, hp, if_pos]
      simp [map_value_mkParsed, map_value_comp, List.map_append]
    · have hbeq : (p.1 == name) = false := by simpa using hp
      have hget : fieldsGet (p :: ptail) name = fieldsGet ptail name := by
        simp [fieldsGet, List.find?, hbeq]
      have hstep : addLineImpl (p :: ptail) (name, vs) =
          p :: addLineImpl ptail (name, vs) := by
        cases hg : fieldsGet ptail name with
        | some w =>
          simp only [addLineImpl, hget, hg, fieldsUpdateFirst]
          rw [if_neg (by simpa using hp)]
        | none =>
          cases vs with
          | nil => simp only [addLineImpl, hget, hg]
          | cons v rest =>
            simp only [addLineImpl, hget, hg, List.cons_append]
      rw [hstep]
      simp only [fieldsEntriesBytes, List.map_cons] at ih ⊢
      rw [ih]
      simp only [addLineG]
      rw [if_neg hp]

theorem entries_foldl (lines : List (List Nat × List (List Nat))) :
    ∀ acc : FieldsM, (∀ e ∈ lines, e.2 ≠ []) →
    fieldsEntriesBytes (lines.foldl addLineImpl acc) =
      lines.foldl addLineG (fieldsEntriesBytes acc) := by
  induction lines with
  | nil => intro acc _; rfl
  | cons e ls ih =>
    obtain ⟨name, vs⟩ := e
    intro acc h
    simp only [List.foldl_cons]
    rw [ih _ (fun x hx => h x (List.mem_cons_of_mem _ hx))]
    rw [entries_addLine name vs (h _ (List.mem_cons_self _ _)) acc]

theorem addLineG_names (e : List Nat × List (List Nat)) :
    ∀ acc : List (List Nat × List (List Nat)),
    (addLineG acc e).map Prod.fst =
      if e.1 ∈ acc.map Prod.fst then acc.map Prod.fst
      else acc.map Prod.fst ++ [e.1] := by
  intro acc
  induction acc with
  | nil => simp [addLineG]
  | cons p rest ih =>
    by_cases hp : p.1 = e.1
    · simp [addLineG, hp]
    · simp only [addLineG, if_neg hp, List.map_cons, ih]
      by_cases hm : e.1 ∈ rest.map Prod.fst
      · rw [if_pos hm, if_pos (by simp [hm])]
      · rw [if_neg hm, if_neg (by
          simp only [List.mem_cons]
          rintro (h | h)
          · exact hp h.symm
          · exact hm h)]
        simp

theorem foldl_addLineG_nodup (lines : List (List Nat × List (List Nat))) :
    ∀ acc : List (List Nat × List (List Nat)), (acc.map Prod.fst).Nodup →
      ((lines.foldl addLineG acc).map Prod.fst).Nodup := by
  induction lines with
  | nil => intro acc h; exact h
  | cons e ls ih =>
    intro acc h
    simp only [List.foldl_cons]
    apply ih
    rw [addLineG_names]
    by_cases hm : e.1 ∈ acc.map Prod.fst
    · rw [if_pos hm]; exact h
    · rw [if_neg hm]
      simp [List.nodup_append, h, hm]

theorem groupLines_names_nodup (lines : List (List Nat × List (List Nat))) :
    ((groupLines lines).map Prod.fst).Nodup :=
  foldl_addLineG_nodup lines [] (by simp)

/-- Claim C9: parsing a serialized well-formed header block groups the
lines exactly as the claim describes: the parsed entries are the lines
grouped by name with each name's values appended in encounter order,
entries ordered by each name's first appearance, and no name owns two
entries. -/
theorem claim_C9_grouping (lines : List (List Nat × List (List Nat)))
    (h : ∀ e ∈ lines, wfLineB e = true) :
    ∃ F, FieldsM.from_bytes (serializeLines lines) = .ok (F, []) ∧
      fieldsEntriesBytes F = groupLines lines ∧
      ((groupLines lines).map Prod.fst).Nodup := by
  refine ⟨lines.foldl addLineImpl [], ?_, ?_, groupLines_names_nodup lines⟩
  · show fieldsLoop ((serializeLines lines).length + 1) [] (serializeLines lines) = _
    exact fieldsLoop_serializeLines lines [] _ h (by omega)
  · have hne : ∀ e ∈ lines, e.2 ≠ [] := by
      intro e he
      exact (wfLineB_unpack e (h e he)).2.2.2.2.1
    exact entries_foldl lines [] hne

/-- Witness for claim C9 at a concrete input: the name `A` on two lines
with values `a` and `b` parses to a single entry holding both values. -/
theorem claim_C9_grouping_witness :
    (∀ e ∈ ([([65], [[97]]), ([65], [[98]])] :
        List (List Nat × List (List Nat))), wfLineB e = true) ∧
    (∃ F, FieldsM.from_bytes
          (serializeLines [([65], [[97]]), ([65], [[98]])]) = .ok (F, []) ∧
      fieldsEntriesBytes F = groupLines [([65], [[97]]), ([65], [[98]])] ∧
      ((groupLines [([65], [[97]]), ([65], [[98]])]).map Prod.fst).Nodup) :=
  ⟨by decide, claim_C9_grouping [([65], [[97]]), ([65], [[98]])] (by decide)⟩

theorem addLineG_not_mem (e : List Nat × List (List Nat)) :
    ∀ acc : List (List Nat × List (List Nat)), e.1 ∉ acc.map Prod.fst →
      addLineG acc e = acc ++ [e] := by
  intro acc
  induction acc with
  | nil => intro _; rfl
  | cons p rest ih =>
    intro h
    simp only [List.map_cons, List.mem_cons] at h
    push_neg at h
    simp only [addLineG]
    rw [if_neg (fun hp => h.1 hp.symm)]
    rw [ih h.2]
    rfl

theorem foldl_addLineG_id (lines : List (List Nat × List (List Nat))) :
    ∀ acc : List (List Nat × List (List Nat)),
      ((acc ++ lines).map Prod.fst).Nodup →
      lines.foldl addLineG acc = acc ++ lines := by
  induction lines with
  | nil => intro acc _; simp
  | cons e ls ih =>
    intro acc h
    have hmem : e.1 ∉ acc.map Prod.fst := by
      rw [List.map_append, List.nodup_append] at h
      intro hm
      exact (h.2.2 hm) (by simp)
    simp only [List.foldl_cons]
    rw [addLineG_not_mem e acc hmem]
    rw [ih (acc ++ [e]) (by rwa [List.append_assoc, List.singleton_append])]
    simp

theorem groupLines_nodup_id (lines : List (List Nat × List (List Nat)))
    (h : (lines.map Prod.fst).Nodup) : groupLines lines = lines := by
  have h0 := foldl_addLineG_id lines [] (by simpa using h)
  simpa [groupLines] using h0

theorem valuesWrite_sepJoin : ∀ (extra : List Value) (f : Value),
    valuesWriteToBuffer { first := f, extra := extra } =
      sepJoin ((f :: extra).map Value.value) := by
  intro extra
  induction extra with
  | nil =>
    intro f
    simp [valuesWriteToBuffer, sepJoin]
  | cons w t ih =>
    intro f
    have ihw := ih w
    simp only [valuesWriteToBuffer, List.map_cons, List.foldr_cons] at ihw ⊢
    rw [show sepJoin (f.value :: w.value :: List.map Value.value t) =
        f.value ++ 44 :: 32 :: sepJoin (w.value :: List.map Value.value t) from rfl]
    rw [← ihw]
    simp

theorem fieldsWrite_entries (F : FieldsM) :
    (F.map (fun e => writeFieldToBuffer e.1 e.2 ++ CRLFb)).foldr (· ++ ·) [] =
      ((fieldsEntriesBytes F).map serializeLine).foldr (· ++ ·) [] := by
  induction F with
  | nil => rfl
  | cons p rest ih =>
    obtain ⟨n, vsm⟩ := p
    obtain ⟨f, ex⟩ := vsm
    simp only [fieldsEntriesBytes, List.map_cons, List.foldr_cons] at ih ⊢
    rw [ih]
    congr 1
    simp only [writeFieldToBuffer, serializeLine, valuesWrite_sepJoin]
    simp

theorem fieldsWrite_serialize (F : FieldsM) (hF : F ≠ []) :
    fieldsWriteToBuffer F = serializeLines (fieldsEntriesBytes F) := by
  have hie : F.isEmpty = false := by
    cases F with
    | nil => exact absurd rfl hF
    | cons p rest => rfl
  simp only [fieldsWriteToBuffer, serializeLines, hie, Bool.false_eq_true,
    if_false, fieldsWrite_entries]

/-- Claim C2 (amended): for a non-empty collection of well-formed header
lines with pairwise distinct names, the round-trip holds in both
directions: parsing the serialized bytes consumes them entirely and
returns entries equal byte-for-byte to the lines, and re-serializing the
parsed `Fields` reproduces the serialized wire bytes identically (the
canonical form: `name: `, `", "`-joined values, CRLF per line, one final
CRLF). The restrictions are necessary: the empty collection fails the
round-trip, and a repeated name changes the entry list (claim C9). -/
theorem claim_C2_roundtrip (lines : List (List Nat × List (List Nat)))
    (hwf : ∀ e ∈ lines, wfLineB e = true)
    (hnodup : (lines.map Prod.fst).Nodup)
    (hne : lines ≠ []) :
    ∃ F, FieldsM.from_bytes (serializeLines lines) = .ok (F, []) ∧
      fieldsEntriesBytes F = lines ∧
      fieldsWriteToBuffer F = serializeLines lines := by
  have hE : fieldsEntriesBytes (lines.foldl addLineImpl []) = lines := by
    have h1 := entries_foldl lines []
      (fun e he => (wfLineB_unpack e (hwf e he)).2.2.2.2.1)
    rw [h1]
    exact groupLines_nodup_id lines hnodup
  refine ⟨lines.foldl addLineImpl [], ?_, hE, ?_⟩
  · show fieldsLoop ((serializeLines lines).length + 1) [] (serializeLines lines) = _
    exact fieldsLoop_serializeLines lines [] _ hwf (by omega)
  · have hFne : lines.foldl addLineImpl [] ≠ [] := by
      intro hF
      apply hne
      rw [← hE, hF]
      rfl
    rw [fieldsWrite_serialize _ hFne, hE]

/-- Witness for claim C2 (amended) at a concrete input: the single line
`A: a` round-trips in both directions. -/
theorem claim_C2_roundtrip_witness :
    (∀ e ∈ ([([65], [[97]])] : List (List Nat × List (List Nat))),
        wfLineB e = true) ∧
    (([([65], [[97]])] : List (List Nat × List (List Nat))).map
        Prod.fst).Nodup ∧
    ([([65], [[97]])] : List (List Nat × List (List Nat))) ≠ [] ∧
    (∃ F, FieldsM.from_bytes (serializeLines [([65], [[97]])]) = .ok (F, []) ∧
      fieldsEntriesBytes F = [([65], [[97]])] ∧
      fieldsWriteToBuffer F = serializeLines [([65], [[97]])]) :=
  ⟨by decide, by decide, by decide,
    claim_C2_roundtrip [([65], [[97]])] (by decide) (by decide) (by decide)⟩

theorem requestFromBytes_body (bytes : List Nat) (sl : StartLineM)
    (b1 : List Nat) (headers : FieldsM) (b2 : List Nat)
    (hsl : startLineFromBytes bytes = .ok (sl, b1))
    (hh : FieldsM.from_bytes b1 = .ok (headers, b2)) :
    requestFromBytes bytes =
      if contentLengthOf headers < b2.length then .err .BodyLongerThanStream
      else if contentLengthOf headers ≤ b2.length then
        .ok { method := sl.method, path := sl.path, version := sl.version,
              headers := headers, body := b2.take (contentLengthOf headers),
              trailers := [] }
      else .panicked := by
  simp only [requestFromBytes, hsl, hh]

theorem responseFromBytes_body (bytes : List Nat) (v : VersionM) (c : CodeM)
    (b1 : List Nat) (headers : FieldsM) (b2 : List Nat)
    (hsl : respStartLineFromBytes bytes = .ok ((v, c), b1))
    (hh : FieldsM.from_bytes b1 = .ok (headers, b2)) :
    responseFromBytes bytes =
      if contentLengthOf headers < b2.length then .err .BodyLongerThanStream
      else if contentLengthOf headers ≤ b2.length then
        .ok { version := v, code := c, headers := headers,
              body := b2.take (contentLengthOf headers), trailers := [] }
      else .panicked := by
  simp only [responseFromBytes, hsl, hh]

/-- Claim C1 counterexample: the claim says that apart from the declared
length being below the remaining bytes, the parse returns successfully.
With a declared `Content-Length` of 5 and only 2 remaining bytes,
`bytes.split_to(content_length)` indexes past the end of the buffer and
the parse panics instead. -/
theorem claim_C1_counterexample :
    requestFromBytes
      [71, 69, 84, 32, 47, 32, 72, 84, 84, 80, 47, 49, 46, 49, 13, 10,
       67, 111, 110, 116, 101, 110, 116, 45, 76, 101, 110, 103, 116, 104,
       58, 32, 53, 13, 10, 13, 10, 97, 98] = .panicked := by
  decide

/-- Claim C1 (amended): after a successful start line and header parse,
the body step is a strict trichotomy on the declared Content-Length
(missing or unparsable read as 0) against the remaining bytes: below it
the parse fails with `BodyLongerThanStream`, equal to it the parse
succeeds with exactly the remaining bytes as the body, and above it the
parse panics in `split_to` rather than returning an error; the same holds
for `Response::from_bytes`. -/
theorem claim_C1_body_framing (bytes rbytes : List Nat) (sl : StartLineM)
    (b1 : List Nat) (headers : FieldsM) (b2 : List Nat)
    (v : VersionM) (c : CodeM) (rb1 : List Nat) (rheaders : FieldsM)
    (rb2 : List Nat)
    (hsl : startLineFromBytes bytes = .ok (sl, b1))
    (hh : FieldsM.from_bytes b1 = .ok (headers, b2))
    (hrsl : respStartLineFromBytes rbytes = .ok ((v, c), rb1))
    (hrh : FieldsM.from_bytes rb1 = .ok (rheaders, rb2)) :
    (requestFromBytes bytes =
      if contentLengthOf headers < b2.length then .err .BodyLongerThanStream
      else if contentLengthOf headers = b2.length then
        .ok { method := sl.method, path := sl.path, version := sl.version,
              headers := headers, body := b2, trailers := [] }
      else .panicked) ∧
    (responseFromBytes rbytes =
      if contentLengthOf rheaders < rb2.length then .err .BodyLongerThanStream
      else if contentLengthOf rheaders = rb2.length then
        .ok { version := v, code := c, headers := rheaders, body := rb2,
              trailers := [] }
      else .panicked) := by
  constructor
  · rw [requestFromBytes_body bytes sl b1 headers b2 hsl hh]
    by_cases h1 : contentLengthOf headers < b2.length
    · rw [if_pos h1, if_pos h1]
    · rw [if_neg h1, if_neg h1]
      by_cases h2 : contentLengthOf headers = b2.length
      · rw [if_pos (by omega : contentLengthOf headers ≤ b2.length), if_pos h2,
          h2, List.take_length]
      · rw [if_neg (by omega : ¬ contentLengthOf headers ≤ b2.length),
          if_neg h2]
  · rw [responseFromBytes_body rbytes v c rb1 rheaders rb2 hrsl hrh]
    by_cases h1 : contentLengthOf rheaders < rb2.length
    · rw [if_pos h1, if_pos h1]
    · rw [if_neg h1, if_neg h1]
      by_cases h2 : contentLengthOf rheaders = rb2.length
      · rw [if_pos (by omega : contentLengthOf rheaders ≤ rb2.length),
          if_pos h2, h2, List.take_length]
      · rw [if_neg (by omega : ¬ contentLengthOf rheaders ≤ rb2.length),
          if_neg h2]

/-- The request wire bytes `GET / HTTP/1.1 CRLF Content-Length: 2 CRLF
CRLF ab` of the claim C1 witness. -/
def c1ReqBytes : List Nat :=
  [71, 69, 84, 32, 47, 32, 72, 84, 84, 80, 47, 49, 46, 49, 13, 10,
   67, 111, 110, 116, 101, 110, 116, 45, 76, 101, 110, 103, 116, 104,
   58, 32, 50, 13, 10, 13, 10, 97, 98]

/-- The bytes left after the start line of `c1ReqBytes`. -/
def c1B1 : List Nat :=
  [67, 111, 110, 116, 101, 110, 116, 45, 76, 101, 110, 103, 116, 104,
   58, 32, 50, 13, 10, 13, 10, 97, 98]

/-- The parsed start line of `c1ReqBytes`. -/
def c1Sl : StartLineM :=
  { method := .Get, path := [47], version := { major := 1, minor := 1 } }

/-- The parsed headers of `c1ReqBytes`: one `Content-Length: 2` entry. -/
def c1H : FieldsM :=
  [([67, 111, 110, 116, 101, 110, 116, 45, 76, 101, 110, 103, 116, 104],
    { first := { value := [50], is_valid_ascii := true }, extra := [] })]

/-- The response wire bytes `HTTP/1.1 200 OK CRLF CRLF` of the claim C1
witness. -/
def c1RespBytes : List Nat :=
  [72, 84, 84, 80, 47, 49, 46, 49, 32, 50, 48, 48, 32, 79, 75, 13, 10, 13, 10]

/-- Witness for claim C1 (amended) at concrete inputs: a request with
`Content-Length: 2` and exactly two remaining bytes, and a header-less
response with no remaining bytes, each satisfying the trichotomy. -/
theorem claim_C1_body_framing_witness :
    startLineFromBytes c1ReqBytes = .ok (c1Sl, c1B1) ∧
    FieldsM.from_bytes c1B1 = .ok (c1H, [97, 98]) ∧
    respStartLineFromBytes c1RespBytes =
      .ok (({ major := 1, minor := 1 }, .Ok), [13, 10]) ∧
    FieldsM.from_bytes [13, 10] = .ok ([], []) ∧
    ((requestFromBytes c1ReqBytes =
      if contentLengthOf c1H < [97, 98].length then .err .BodyLongerThanStream
      else if contentLengthOf c1H = [97, 98].length then
        .ok { method := c1Sl.method, path := c1Sl.path,
              version := c1Sl.version, headers := c1H, body := [97, 98],
              trailers := [] }
      else .panicked) ∧
    (responseFromBytes c1RespBytes =
      if contentLengthOf ([] : FieldsM) < ([] : List Nat).length then
        .err .BodyLongerThanStream
      else if contentLengthOf ([] : FieldsM) = ([] : List Nat).length then
        .ok { version := { major := 1, minor := 1 }, code := .Ok,
              headers := [], body := [], trailers := [] }
      else .panicked)) :=
  ⟨by decide, by decide, by decide, by decide,
    claim_C1_body_framing c1ReqBytes c1RespBytes c1Sl c1B1 c1H [97, 98]
      { major := 1, minor := 1 } .Ok [13, 10] [] []
      (by decide) (by decide) (by decide) (by decide)⟩
